import Mathlib

/-
Verification development for the raindrop-sync-chrome repository.

The model below is a shallow embedding of the incremental bookmark sync engine
in `ChromeBookmarkRepository` (types `BookmarkState`, `SyncState`, methods
`loadSyncState`, `saveSyncState`, `incrementalSync`,
`processCollectionForIncremental`, `syncUnsortedCollection`, `isInSyncFolder`)
together with a model of the `normalizeUrl` string helper.

Modelling conventions:
- The Chrome bookmarks store is a `Browser`: a flat list of nodes with
  parent links plus a counter generating fresh ids for `chrome.bookmarks.create`.
- JavaScript `Map` values are association lists (`alGet` / `alSet` mirror
  `Map.get` / `Map.set`: `set` replaces in place, else appends, preserving
  insertion order, which is also the iteration order of `for .. of`).
- The Raindrop client is a function `Client : Int → Option (List Raindrop)`;
  `none` models `getAllRaindrops` throwing.  This is the only failure channel
  of a run: Chrome API calls are modelled as total, matching the fact that the
  code wraps the unsorted fetch and the deletion search in `try`/`catch`
  while a failed collection fetch in the main walk aborts the run.
- `chrome.storage.local` is the `storage` field of `World`; the ghost counter
  `writes` counts `chrome.storage.local.set` invocations.
- JS builtins `parseInt`, number→string conversion and `Date`/ISO-8601
  serialization (externals to the repository) are modelled by an explicit
  decimal encoding (`jsIntToString` / `jsParseInt`, `jsDateToISO` /
  `jsDateParse`, dates as epoch integers).
-/

namespace RSC

/-- Association list lookup, mirroring JS `Map.get` (first binding wins;
a JS `Map` never holds a duplicate key, which `alSet` preserves). -/
def alGet {κ ν : Type} [DecidableEq κ] : List (κ × ν) → κ → Option ν
  | [], _ => none
  | p :: ps, k => if p.1 = k then some p.2 else alGet ps k

/-- Association list update, mirroring JS `Map.set`: replace the existing
binding in place, else append, preserving insertion order. -/
def alSet {κ ν : Type} [DecidableEq κ] : List (κ × ν) → κ → ν → List (κ × ν)
  | [], k, v => [(k, v)]
  | p :: ps, k, v => if p.1 = k then (k, v) :: ps else p :: alSet ps k v

/-- A raindrop item as returned by `raindropClient.raindrop.getAllRaindrops`:
the fields of `generated.Raindrop` that the sync engine reads
(`link`, `title`, `_id`, `lastUpdate`, `cover`). -/
structure Raindrop where
  link : String
  title : String
  rid : Int
  lastUpdate : Option String
  cover : Option String
deriving DecidableEq

/-- Per-item persisted state (interface `BookmarkState` in the source). -/
structure BookmarkState where
  url : String
  title : String
  collectionId : Int
  raindropId : Int
  lastModified : Option String
  cover : Option String
deriving DecidableEq

/-- The `bookmarks` map of a `SyncState`, keyed by URL. -/
abbrev BMap := List (String × BookmarkState)

/-- The raindrop client: collection id to fetched raindrops, `none` models a
thrown fetch error. -/
abbrev Client := Int → Option (List Raindrop)

/-- The `BookmarkState` literal built for each raindrop in
`processCollectionForIncremental` (and, with collection id `-1`, in
`syncUnsortedCollection`); `rd.cover || undefined` maps the empty string
(falsy) to `undefined`. -/
def mkBookmarkState (rd : Raindrop) (collectionId : Int) : BookmarkState :=
  { url := rd.link
    title := rd.title
    collectionId := collectionId
    raindropId := rd.rid
    lastModified := rd.lastUpdate
    cover := match rd.cover with
      | some c => if c = "" then none else some c
      | none => none }

/-- The fields of `generated.Collection` read by the engine: `_id`, `title`. -/
structure Collection where
  cid : Int
  title : String
deriving DecidableEq

mutual
/-- A `utils.tree.TreeNode<Collection | null>`: payload plus ordered children. -/
inductive CTree where
  | node (data : Option Collection) (children : CTreeList)
/-- The ordered child list of a `CTree` (kept as a mutual inductive so that
all recursion over trees is structural and kernel-reducible). -/
inductive CTreeList where
  | nil
  | cons (t : CTree) (ts : CTreeList)
end

/-- The collection id of a tree node: `tree.data?._id ?? -1`. -/
def cidOf : Option Collection → Int
  | some c => c.cid
  | none => -1

/-- Truthiness of `tree.data?.title` (absent data or empty title is falsy). -/
def titled : Option Collection → Bool
  | some c => ¬(c.title = "")
  | none => false

/-- The fallback title `tree.data?.title || 'Unsorted'`. -/
def collectionTitleOf : Option Collection → String
  | some c => if c.title = "" then "Unsorted" else c.title
  | none => "Unsorted"

/-- A Chrome `BookmarkTreeNode` (`id`, `parentId`, `title`, `url`). -/
structure BmNode where
  id : String
  parentId : Option String
  title : String
  url : Option String
deriving DecidableEq

/-- The Chrome bookmarks store: flat node list plus a fresh-id counter. -/
structure Browser where
  nodes : List BmNode
  nextId : Nat
deriving DecidableEq

/-- The id the next `chrome.bookmarks.create` call will allocate. -/
def Browser.freshId (b : Browser) : String := "auto" ++ toString b.nextId

/-- Model of `chrome.bookmarks.create`: allocate a fresh id, append the node. -/
def Browser.create (b : Browser) (parentId title : String) (url : Option String) :
    BmNode × Browser :=
  let n : BmNode := { id := b.freshId, parentId := some parentId, title := title, url := url }
  (n, { nodes := b.nodes ++ [n], nextId := b.nextId + 1 })

/-- Model of `chrome.bookmarks.getSubTree(id)[0]` (as used by `findFolderById`):
look a node up by id, `none` when it does not exist. -/
def Browser.find (b : Browser) (id : String) : Option BmNode :=
  b.nodes.find? (fun n => decide (n.id = id))

/-- Model of `chrome.bookmarks.search({ url })`: every node with that URL. -/
def Browser.search (b : Browser) (url : String) : List BmNode :=
  b.nodes.filter (fun n => decide (n.url = some url))

/-- Model of `chrome.bookmarks.update(id, { title })`. -/
def Browser.update (b : Browser) (id title : String) : Browser :=
  { b with nodes := b.nodes.map (fun n => if n.id = id then { n with title := title } else n) }

/-- Model of `chrome.bookmarks.move(id, { parentId })`. -/
def Browser.move (b : Browser) (id parentId : String) : Browser :=
  { b with nodes := b.nodes.map (fun n => if n.id = id then { n with parentId := some parentId } else n) }

/-- Model of `chrome.bookmarks.remove(id)`. -/
def Browser.remove (b : Browser) (id : String) : Browser :=
  { b with nodes := b.nodes.filter (fun n => decide (¬(n.id = id))) }

/-- Model of `chrome.bookmarks.getChildren(id)`. -/
def Browser.getChildren (b : Browser) (pid : String) : List BmNode :=
  b.nodes.filter (fun n => decide (n.parentId = some pid))

/-- Whether following `parentId` links from `id` reaches `anc` (fuel-bounded
walk; used only to state theorems about subtree containment, the source has no
such walk). -/
def Browser.isUnderAux (b : Browser) : Nat → String → String → Bool
  | 0, _, _ => false
  | fuel + 1, id, anc =>
    if id = anc then true
    else match b.find id with
      | some n => match n.parentId with
        | some p => b.isUnderAux fuel p anc
        | none => false
      | none => false

/-- Whether node `id` lies in the subtree rooted at `anc`. -/
def Browser.isUnder (b : Browser) (id anc : String) : Bool :=
  b.isUnderAux (b.nodes.length + 1) id anc

/-- `ChromeBookmarkRepository.isInSyncFolder`, verbatim from the source: the
subtree-containment check is a stub that always answers `true`. -/
def isInSyncFolder (_folderId : String) (_syncFolderId : String) : Bool :=
  true

/-- The `stats` record threaded through a run. -/
structure Stats where
  added : Nat
  updated : Nat
  deleted : Nat
  unchanged : Nat
deriving DecidableEq

/-- The mutable state threaded through the tree walk of `incrementalSync`:
the browser, the new `bookmarks` map, the new `collectionFolders` map and the
`stats` record. -/
structure WalkState where
  browser : Browser
  newBookmarks : BMap
  collectionFolders : List (Int × String)
  stats : Stats
deriving DecidableEq

/-- Folder resolution of `processCollectionForIncremental` (lines 223-240):
look the collection id up in the run-local `collectionFolders` map; on a hit,
keep the folder when `getFolderById` succeeds, otherwise (or on a miss) create
a new folder under the current parent. Returns the folder id and the browser. -/
def resolveCollectionFolder (st : WalkState) (parentFolder : String)
    (collectionId : Int) (collectionTitle : String) : String × Browser :=
  match alGet st.collectionFolders collectionId with
  | some fid =>
    match st.browser.find fid with
    | some _ => (fid, st.browser)
    | none =>
      let nb := st.browser.create parentFolder collectionTitle none
      (nb.1.id, nb.2)
  | none =>
    let nb := st.browser.create parentFolder collectionTitle none
    (nb.1.id, nb.2)

/-- The per-search-result body of the update branch in
`processCollectionForIncremental` (lines 271-279): bookmarks with a parent get
their title updated, and are additionally moved when the collection changed
(`doMove`); bookmarks without a parent are left alone. -/
def updMoveStep (title : String) (doMove : Bool) (folder : String)
    (b : Browser) (bm : BmNode) : Browser :=
  match bm.parentId with
  | some _ =>
    let b1 := b.update bm.id title
    if doMove then b1.move bm.id folder else b1
  | none => b

/-- Per-raindrop body of the `for (const rd of raindrops)` loop in
`processCollectionForIncremental` (lines 248-284). -/
def processRaindrop (prev : BMap) (collectionId : Int) (folder : String)
    (st : WalkState) (rd : Raindrop) : WalkState :=
  let bs := mkBookmarkState rd collectionId
  let nb := alSet st.newBookmarks rd.link bs
  match alGet prev rd.link with
  | none =>
    let cr := st.browser.create folder rd.title (some rd.link)
    { st with newBookmarks := nb, browser := cr.2,
              stats := { st.stats with added := st.stats.added + 1 } }
  | some p =>
    if p.title ≠ rd.title ∨ p.collectionId ≠ collectionId then
      let results := st.browser.search rd.link
      let b := results.foldl
        (updMoveStep rd.title (decide (p.collectionId ≠ collectionId)) folder) st.browser
      { st with newBookmarks := nb, browser := b,
                stats := { st.stats with updated := st.stats.updated + 1 } }
    else
      { st with newBookmarks := nb,
                stats := { st.stats with unchanged := st.stats.unchanged + 1 } }

/-- The `if (tree.data?.title)` folder step of
`processCollectionForIncremental` (lines 220-242): for a titled node, resolve
the destination folder and record it in the run-local `collectionFolders` map;
for an untitled node, keep the parent folder. -/
def stepFolder (st : WalkState) (parentFolder : String) (data : Option Collection) :
    String × WalkState :=
  if titled data then
    let fb := resolveCollectionFolder st parentFolder (cidOf data) (collectionTitleOf data)
    (fb.1, { st with browser := fb.2,
                     collectionFolders := alSet st.collectionFolders (cidOf data) fb.1 })
  else (parentFolder, st)

mutual
/-- `ChromeBookmarkRepository.processCollectionForIncremental`: resolve (or
not, for untitled nodes) the destination folder, fetch the collection's
raindrops (a failed fetch aborts with `false`), process each raindrop, then
recurse into child collections sequentially. -/
def processCollection (client : Client) (prev : BMap) (parentFolder : String)
    (t : CTree) (st : WalkState) : Bool × WalkState :=
  match t with
  | .node data children =>
    let fr : String × WalkState := stepFolder st parentFolder data
    match client (cidOf data) with
    | none => (false, fr.2)
    | some rds =>
      let st2 := rds.foldl (processRaindrop prev (cidOf data) fr.1) fr.2
      processChildren client prev fr.1 children st2
/-- The sequential `for (const child of tree.children)` loop; a failure in a
child aborts the remaining siblings. -/
def processChildren (client : Client) (prev : BMap) (folder : String)
    (ts : CTreeList) (st : WalkState) : Bool × WalkState :=
  match ts with
  | .nil => (true, st)
  | .cons t rest =>
    let r := processCollection client prev folder t st
    if r.1 then processChildren client prev folder rest r.2 else r
end

/-- Title of the Unsorted destination folder. -/
def unsortedTitle : String := "📥 Unsorted"

/-- Folder resolution of `syncUnsortedCollection` (lines 314-339): run-local
map lookup, then a by-name scan of the base folder's children, then create. -/
def resolveUnsortedFolder (b : Browser) (cf : List (Int × String))
    (baseId : String) : String × Browser :=
  match alGet cf (-1) with
  | some fid =>
    match b.find fid with
    | some _ => (fid, b)
    | none =>
      let nb := b.create baseId unsortedTitle none
      (nb.1.id, nb.2)
  | none =>
    match (b.getChildren baseId).find?
        (fun c => decide (c.title = unsortedTitle ∧ c.url = none)) with
    | some c => (c.id, b)
    | none =>
      let nb := b.create baseId unsortedTitle none
      (nb.1.id, nb.2)

/-- Per-raindrop body of the loop in `syncUnsortedCollection` (lines 347-378):
items already in the new `bookmarks` map are skipped; otherwise create, or
update the title on every search result (no parent check, no move), or count
unchanged. -/
def processUnsortedRd (prev : BMap) (ufolder : String) (st : WalkState)
    (rd : Raindrop) : WalkState :=
  if (alGet st.newBookmarks rd.link).isSome then st
  else
    let bs := mkBookmarkState rd (-1)
    let nb := alSet st.newBookmarks rd.link bs
    match alGet prev rd.link with
    | none =>
      let cr := st.browser.create ufolder rd.title (some rd.link)
      { st with newBookmarks := nb, browser := cr.2,
                stats := { st.stats with added := st.stats.added + 1 } }
    | some p =>
      if p.title ≠ rd.title then
        let results := st.browser.search rd.link
        let b := results.foldl (fun b bm => b.update bm.id rd.title) st.browser
        { st with newBookmarks := nb, browser := b,
                  stats := { st.stats with updated := st.stats.updated + 1 } }
      else
        { st with newBookmarks := nb,
                  stats := { st.stats with unchanged := st.stats.unchanged + 1 } }

/-- `ChromeBookmarkRepository.syncUnsortedCollection`: resolve the Unsorted
folder, record it under id `-1`, then process the unsorted raindrops; a failed
fetch is caught (`try`/`catch`) and leaves the state as is. -/
def syncUnsorted (client : Client) (prev : BMap) (baseId : String)
    (st : WalkState) : WalkState :=
  let fb := resolveUnsortedFolder st.browser st.collectionFolders baseId
  let st1 := { st with browser := fb.2,
                       collectionFolders := alSet st.collectionFolders (-1) fb.1 }
  match client (-1) with
  | none => st1
  | some rds => rds.foldl (processUnsortedRd prev fb.1) st1

/-- One step of the deletion pass: the body guarded by
`if (bm.parentId && this.isInSyncFolder(bm.parentId, opts.baseFolder.id))`. -/
def removeStep (base : String) (acc : Browser × Nat) (bm : BmNode) : Browser × Nat :=
  match bm.parentId with
  | some pid => if isInSyncFolder pid base then (acc.1.remove bm.id, acc.2 + 1) else acc
  | none => acc

/-- Deletion of one stale URL: search the whole browser for the URL and remove
every hit that passes `removeStep`'s guard. -/
def removeStaleForUrl (base : String) (u : String) (b : Browser) (d : Nat) :
    Browser × Nat :=
  (b.search u).foldl (removeStep base) (b, d)

/-- The deletion pass of `incrementalSync` (lines 177-192): for every entry of
the previous `bookmarks` map whose URL is absent from the new map, search and
remove. -/
def deleteStalePass (newB prevB : BMap) (base : String) (b : Browser) (d : Nat) :
    Browser × Nat :=
  prevB.foldl
    (fun acc p =>
      if (alGet newB p.1).isSome then acc
      else removeStaleForUrl base p.1 acc.1 acc.2)
    (b, d)

/-- Decimal digit to character (models JS number→string conversion digits,
code point 48 = the character zero). -/
def digitChar (n : Nat) : Char := Char.ofNat (48 + n % 10)

/-- Character to decimal digit (models the digits accepted by JS `parseInt`). -/
def charDigit (c : Char) : Option Nat :=
  if 48 ≤ c.toNat ∧ c.toNat ≤ 57 then some (c.toNat - 48) else none

/-- Fuel-bounded most-significant-first decimal digits of a natural number. -/
def natDigitsAux : Nat → Nat → List Char
  | 0, _ => []
  | fuel + 1, n =>
    if n < 10 then [digitChar n]
    else natDigitsAux fuel (n / 10) ++ [digitChar (n % 10)]

/-- Decimal digits of a natural number. -/
def natDigits (n : Nat) : List Char := natDigitsAux (n + 1) n

/-- Left-to-right decimal accumulation, the digit-consuming core of the
`parseInt` model. -/
def parseDigitsAux (acc : Nat) : List Char → Option Nat
  | [] => some acc
  | c :: cs =>
    match charDigit c with
    | some d => parseDigitsAux (acc * 10 + d) cs
    | none => none

/-- Modelled JS number→string conversion (`String(n)` for an integer), used by
`Object.fromEntries` on the numeric-keyed `collectionFolders` map. -/
def jsIntToString (i : Int) : String :=
  if i < 0 then String.mk ('-' :: natDigits i.natAbs)
  else String.mk (natDigits i.natAbs)

/-- Character-list core of the `parseInt` model. -/
def jsParseIntList : List Char → Int
  | [] => 0
  | c :: rest =>
    if c = '-' then
      match parseDigitsAux 0 rest with
      | some n => -(n : Int)
      | none => 0
    else
      match parseDigitsAux 0 (c :: rest) with
      | some n => (n : Int)
      | none => 0

/-- Modelled JS `parseInt` on the decimal strings produced by serialization
(non-numeric input maps to the `NaN` fallback value `0`). -/
def jsParseInt (s : String) : Int := jsParseIntList s.data

/-- Modelled `Date.prototype.toISOString` with dates as epoch integers: an
invertible external encoding (the real ISO-8601 encoding is invertible at
millisecond precision, which is all the claim about it asks). -/
def jsDateToISO (t : Int) : String := jsIntToString t

/-- Modelled `new Date(isoString)` on serializer output. -/
def jsDateParse (s : String) : Int := jsParseInt s

/-- In-memory `SyncState` (interface `SyncState` in the source), dates as
epoch integers. -/
structure SyncState where
  bookmarks : BMap
  collectionFolders : List (Int × String)
  lastSync : Int
deriving DecidableEq

/-- The serialized shape under the `syncState` storage key: plain objects with
string keys and an ISO timestamp. -/
structure StoredState where
  bookmarks : BMap
  collectionFolders : List (String × String)
  lastSync : String
deriving DecidableEq

/-- The world a run acts on: the browser, `chrome.storage.local`, and a ghost
counter of `chrome.storage.local.set` calls. -/
structure World where
  browser : Browser
  storage : Option StoredState
  writes : Nat
deriving DecidableEq

/-- `ChromeBookmarkRepository.loadSyncState`: rebuild the maps from the stored
objects, `parseInt` on the `collectionFolders` keys, `new Date` on `lastSync`. -/
def loadSyncState (w : World) : Option SyncState :=
  match w.storage with
  | some s => some
      { bookmarks := s.bookmarks
        collectionFolders := s.collectionFolders.map (fun p => (jsParseInt p.1, p.2))
        lastSync := jsDateParse s.lastSync }
  | none => none

/-- `ChromeBookmarkRepository.saveSyncState`: one `chrome.storage.local.set`
of the full serialized state. -/
def saveSyncState (s : SyncState) (w : World) : World :=
  { w with
      storage := some
        { bookmarks := s.bookmarks
          collectionFolders := s.collectionFolders.map (fun p => (jsIntToString p.1, p.2))
          lastSync := jsDateToISO s.lastSync }
      writes := w.writes + 1 }

/-- The previous bookmarks map a run starts from:
`previousState?.bookmarks || new Map()`. -/
def prevBookmarksOf (w : World) : BMap :=
  match loadSyncState w with
  | some s => s.bookmarks
  | none => []

/-- The fresh walk state a run starts with: the current browser, empty
`newBookmarks` and `collectionFolders` maps, all-zero stats. -/
def initWalk (w : World) : WalkState :=
  { browser := w.browser, newBookmarks := [], collectionFolders := []
    stats := ⟨0, 0, 0, 0⟩ }

/-- The `await this.processCollectionForIncremental(...)` call of a run
(named intermediate result of `incrementalSync`). -/
def walkResult (client : Client) (baseId : String) (tree : CTree) (w : World) :
    Bool × WalkState :=
  processCollection client (prevBookmarksOf w) baseId tree (initWalk w)

/-- The walk state after the optional `syncUnsortedCollection` step
(named intermediate result of `incrementalSync`). -/
def afterUnsorted (client : Client) (baseId : String) (tree : CTree) (iu : Bool)
    (w : World) : WalkState :=
  if iu then syncUnsorted client (prevBookmarksOf w) baseId (walkResult client baseId tree w).2
  else (walkResult client baseId tree w).2

/-- `ChromeBookmarkRepository.incrementalSync`: load the previous state, walk
the tree, optionally sync the Unsorted collection, run the deletion pass, then
save the new state.  `none` models the promise rejecting (a raindrop fetch in
the main walk threw); browser mutations made up to that point remain. -/
def incrementalSync (client : Client) (baseId : String) (tree : CTree)
    (includeUnsorted : Bool) (now : Int) (w : World) : Option Stats × World :=
  let r := walkResult client baseId tree w
  if r.1 then
    let st1 := afterUnsorted client baseId tree includeUnsorted w
    let del := deleteStalePass st1.newBookmarks (prevBookmarksOf w) baseId st1.browser
      st1.stats.deleted
    let stats : Stats := { st1.stats with deleted := del.2 }
    let w1 := saveSyncState
      { bookmarks := st1.newBookmarks, collectionFolders := st1.collectionFolders
        lastSync := now }
      { w with browser := del.1 }
    (some stats, w1)
  else (none, { w with browser := r.2.browser })

/-- JS string whitespace as relevant to `String.prototype.trim` on URLs. -/
def isJsSpace (c : Char) : Bool :=
  decide (c = ' ' ∨ c = '\t' ∨ c = '\n' ∨ c = '\r')

/-- Trim leading and trailing whitespace (model of `trim`). -/
def trimChars (l : List Char) : List Char :=
  ((l.dropWhile isJsSpace).reverse.dropWhile isJsSpace).reverse

/-- Strip exactly one trailing slash. -/
def stripOneTrailingSlash (l : List Char) : List Char :=
  match l.reverse with
  | '/' :: rest => rest.reverse
  | _ => l

/-- First escaping pass: every literal backslash becomes an escaped backslash. -/
def escapeBackslashes : List Char → List Char
  | [] => []
  | c :: cs =>
    if c = '\\' then '\\' :: '\\' :: escapeBackslashes cs
    else c :: escapeBackslashes cs

/-- Second escaping pass: every forward slash gets a backslash escape. -/
def escapeSlashes : List Char → List Char
  | [] => []
  | c :: cs =>
    if c = '/' then '\\' :: '/' :: escapeSlashes cs
    else c :: escapeSlashes cs

/-- Modelled from the spec: the repository's `normalizeUrl` implementation
(the `string` module imported by its test suite) is not among the provided
source files, only its tests are; the function is modelled from the spec's
normalization contract — trim whitespace, strip exactly one trailing slash,
then escape every backslash and then every forward slash with a single
backslash. -/
def normalizeUrl (s : String) : String :=
  String.mk (escapeSlashes (escapeBackslashes (stripOneTrailingSlash (trimChars s.data))))

/-! Pure characterizations of the walk, used to state and prove the claims. -/

mutual
/-- The `(url, BookmarkState)` pairs inserted into the new `bookmarks` map by
the main tree walk, in walk order; `none` when some fetch of the walk fails. -/
def mainEntries (client : Client) (t : CTree) : Option (List (String × BookmarkState)) :=
  match t with
  | .node data children =>
    match client (cidOf data) with
    | none => none
    | some rds =>
      match mainEntriesList client children with
      | none => none
      | some es =>
        some (rds.map (fun rd => (rd.link, mkBookmarkState rd (cidOf data))) ++ es)
/-- `mainEntries` over an ordered child list. -/
def mainEntriesList (client : Client) (ts : CTreeList) : Option (List (String × BookmarkState)) :=
  match ts with
  | .nil => some []
  | .cons t rest =>
    match mainEntries client t with
    | none => none
    | some es1 =>
      match mainEntriesList client rest with
      | none => none
      | some es2 => some (es1 ++ es2)
end

/-- Fold a list of entries into a map with `alSet`. -/
def foldEntries (es : List (String × BookmarkState)) (m : BMap) : BMap :=
  es.foldl (fun m e => alSet m e.1 e.2) m

/-- The effect of one unsorted raindrop on the new `bookmarks` map: skipped if
the URL is present, else inserted with collection id `-1`. -/
def ustep (m : BMap) (rd : Raindrop) : BMap :=
  if (alGet m rd.link).isSome then m else alSet m rd.link (mkBookmarkState rd (-1))

/-- The effect of the unsorted pass on the new `bookmarks` map. -/
def unsortedMap (client : Client) (m : BMap) : BMap :=
  match client (-1) with
  | none => m
  | some rds => rds.foldl ustep m

/-- The new `bookmarks` map a successful run persists, as a pure function of
the client, the tree and the `includeUnsorted` flag. -/
def buildAll (client : Client) (iu : Bool) (es : List (String × BookmarkState)) : BMap :=
  if iu then unsortedMap client (foldEntries es []) else foldEntries es []

/-- How many unsorted raindrops are not skipped by the dedup guard, starting
from the map `m`. -/
def unsortedNewCountAux : List Raindrop → BMap → Nat
  | [], _ => 0
  | rd :: rds, m =>
    if (alGet m rd.link).isSome then unsortedNewCountAux rds m
    else unsortedNewCountAux rds (alSet m rd.link (mkBookmarkState rd (-1))) + 1

/-- How many bookmarks the unsorted pass creates on a first run whose main
walk produced the map `m`. -/
def unsortedNewCount (client : Client) (m : BMap) : Nat :=
  match client (-1) with
  | none => 0
  | some rds => unsortedNewCountAux rds m

/-! Association list lemmas. -/

def alGet_alSet_self {κ ν : Type} [DecidableEq κ] (m : List (κ × ν)) (k : κ) (v : ν) :
    alGet (alSet m k v) k = some v := by
  induction m with
  | nil => simp [alSet, alGet]
  | cons p ps ih =>
    by_cases h : p.1 = k
    · simp [alSet, h, alGet]
    · simp [alSet, h, alGet, ih]

def alGet_alSet_ne {κ ν : Type} [DecidableEq κ] (m : List (κ × ν)) (k k' : κ) (v : ν)
    (h : ¬(k' = k)) : alGet (alSet m k' v) k = alGet m k := by
  induction m with
  | nil => simp [alSet, alGet, h]
  | cons p ps ih =>
    simp only [alSet]
    by_cases hp : p.1 = k'
    · rw [if_pos hp]
      simp only [alGet]
      rw [if_neg h, if_neg (fun hh => h (hp.symm.trans hh))]
    · rw [if_neg hp]
      simp only [alGet]
      by_cases hk : p.1 = k
      · rw [if_pos hk, if_pos hk]
      · rw [if_neg hk, if_neg hk, ih]

def alGet_isSome_of_mem {κ ν : Type} [DecidableEq κ] (m : List (κ × ν)) (k : κ) (v : ν)
    (h : (k, v) ∈ m) : (alGet m k).isSome := by
  induction m with
  | nil => simp at h
  | cons p ps ih =>
    rcases List.mem_cons.mp h with h1 | h2
    · subst h1
      simp [alGet]
    · by_cases hp : p.1 = k
      · simp [alGet, hp]
      · simp [alGet, hp, ih h2]

/-! `foldEntries` lemmas. -/

def foldEntries_append (es1 es2 : List (String × BookmarkState)) (m : BMap) :
    foldEntries (es1 ++ es2) m = foldEntries es2 (foldEntries es1 m) := by
  simp [foldEntries, List.foldl_append]

def foldEntries_get_notMem (es : List (String × BookmarkState)) (m : BMap) (k : String)
    (h : k ∉ es.map Prod.fst) : alGet (foldEntries es m) k = alGet m k := by
  induction es generalizing m with
  | nil => simp [foldEntries]
  | cons e es ih =>
    simp only [List.map_cons, List.mem_cons, not_or] at h
    show alGet (foldEntries es (alSet m e.1 e.2)) k = alGet m k
    rw [ih _ h.2, alGet_alSet_ne _ _ _ _ (fun he => h.1 he.symm)]

def foldEntries_get_mem (es : List (String × BookmarkState)) (m : BMap)
    (e : String × BookmarkState) (he : e ∈ es) (hnd : (es.map Prod.fst).Nodup) :
    alGet (foldEntries es m) e.1 = some e.2 := by
  induction es generalizing m with
  | nil => simp at he
  | cons hd es ih =>
    simp only [List.map_cons, List.nodup_cons] at hnd
    rcases List.mem_cons.mp he with h1 | h2
    · subst h1
      show alGet (foldEntries es (alSet m e.1 e.2)) e.1 = some e.2
      rw [foldEntries_get_notMem _ _ _ hnd.1, alGet_alSet_self]
    · exact ih _ h2 hnd.2

/-! Projection lemmas for the per-raindrop step and the folder step. -/

def processRaindrop_nb (prev : BMap) (cid : Int) (f : String) (st : WalkState) (rd : Raindrop) :
    (processRaindrop prev cid f st rd).newBookmarks
      = alSet st.newBookmarks rd.link (mkBookmarkState rd cid) := by
  unfold processRaindrop
  cases alGet prev rd.link with
  | none => rfl
  | some p =>
    by_cases hc : p.title ≠ rd.title ∨ p.collectionId ≠ cid
    · simp only [if_pos hc]
    · simp only [if_neg hc]

def processRaindrop_cf (prev : BMap) (cid : Int) (f : String) (st : WalkState) (rd : Raindrop) :
    (processRaindrop prev cid f st rd).collectionFolders = st.collectionFolders := by
  unfold processRaindrop
  cases alGet prev rd.link with
  | none => rfl
  | some p =>
    by_cases hc : p.title ≠ rd.title ∨ p.collectionId ≠ cid
    · simp only [if_pos hc]
    · simp only [if_neg hc]

def processRaindrop_stats_agree (prev : BMap) (cid : Int) (f : String) (st : WalkState)
    (rd : Raindrop) (h : alGet prev rd.link = some (mkBookmarkState rd cid)) :
    (processRaindrop prev cid f st rd).stats.added = st.stats.added ∧
    (processRaindrop prev cid f st rd).stats.updated = st.stats.updated ∧
    (processRaindrop prev cid f st rd).stats.deleted = st.stats.deleted := by
  unfold processRaindrop
  rw [h]
  have hc : ¬((mkBookmarkState rd cid).title ≠ rd.title ∨
      (mkBookmarkState rd cid).collectionId ≠ cid) := by
    simp [mkBookmarkState]
  dsimp only
  rw [if_neg hc]
  exact ⟨rfl, rfl, rfl⟩

def processRaindrop_empty (cid : Int) (f : String) (st : WalkState) (rd : Raindrop) :
    processRaindrop [] cid f st rd =
      { st with
          newBookmarks := alSet st.newBookmarks rd.link (mkBookmarkState rd cid)
          browser := (st.browser.create f rd.title (some rd.link)).2
          stats := { st.stats with added := st.stats.added + 1 } } := by
  unfold processRaindrop
  rfl

def stepFolder_nb (st : WalkState) (pf : String) (data : Option Collection) :
    (stepFolder st pf data).2.newBookmarks = st.newBookmarks := by
  unfold stepFolder
  by_cases h : titled data = true <;> simp [h]

def stepFolder_stats (st : WalkState) (pf : String) (data : Option Collection) :
    (stepFolder st pf data).2.stats = st.stats := by
  unfold stepFolder
  by_cases h : titled data = true <;> simp [h]

/-! Lemmas about the raindrop fold of one collection. -/

def rfold_nb (prev : BMap) (cid : Int) (f : String) (rds : List Raindrop) :
    ∀ st : WalkState,
    (rds.foldl (processRaindrop prev cid f) st).newBookmarks
      = foldEntries (rds.map (fun rd => (rd.link, mkBookmarkState rd cid))) st.newBookmarks := by
  induction rds with
  | nil => intro st; rfl
  | cons rd rds ih =>
    intro st
    show (rds.foldl (processRaindrop prev cid f) (processRaindrop prev cid f st rd)).newBookmarks = _
    rw [ih]
    simp only [List.map_cons, foldEntries, List.foldl_cons]
    rw [processRaindrop_nb]

def rfold_stats_agree (prev : BMap) (cid : Int) (f : String) (rds : List Raindrop) :
    ∀ st : WalkState,
    (∀ rd ∈ rds, alGet prev rd.link = some (mkBookmarkState rd cid)) →
    ((rds.foldl (processRaindrop prev cid f) st).stats.added = st.stats.added ∧
     (rds.foldl (processRaindrop prev cid f) st).stats.updated = st.stats.updated ∧
     (rds.foldl (processRaindrop prev cid f) st).stats.deleted = st.stats.deleted) := by
  induction rds with
  | nil => intro st _; exact ⟨rfl, rfl, rfl⟩
  | cons rd rds ih =>
    intro st h
    have h1 := processRaindrop_stats_agree prev cid f st rd (h rd (List.mem_cons_self rd rds))
    have h2 := ih (processRaindrop prev cid f st rd) (fun r hr => h r (List.mem_cons_of_mem rd hr))
    exact ⟨h2.1.trans h1.1, h2.2.1.trans h1.2.1, h2.2.2.trans h1.2.2⟩

/-! The walk succeeds and builds exactly the `mainEntries` map. -/

mutual
def pc_entries (client : Client) (prev : BMap) :
    ∀ (t : CTree) (pf : String) (st : WalkState) (es : List (String × BookmarkState)),
    mainEntries client t = some es →
    (processCollection client prev pf t st).1 = true ∧
    (processCollection client prev pf t st).2.newBookmarks = foldEntries es st.newBookmarks
  | CTree.node data children, pf, st, es, h => by
    rw [mainEntries] at h
    rcases hc : client (cidOf data) with _ | rds <;> rw [hc] at h
    · exact absurd h (by simp)
    · rcases hl : mainEntriesList client children with _ | es2 <;> rw [hl] at h
      · exact absurd h (by simp)
      · have hes : es = rds.map (fun rd => (rd.link, mkBookmarkState rd (cidOf data))) ++ es2 := by
          injection h with h'
          exact h'.symm
        subst hes
        rw [processCollection, hc]
        have hrec := pcl_entries client prev children (stepFolder st pf data).1
          (rds.foldl (processRaindrop prev (cidOf data) (stepFolder st pf data).1)
            (stepFolder st pf data).2) es2 hl
        refine ⟨hrec.1, ?_⟩
        rw [hrec.2, rfold_nb, stepFolder_nb, foldEntries_append]
def pcl_entries (client : Client) (prev : BMap) :
    ∀ (ts : CTreeList) (f : String) (st : WalkState) (es : List (String × BookmarkState)),
    mainEntriesList client ts = some es →
    (processChildren client prev f ts st).1 = true ∧
    (processChildren client prev f ts st).2.newBookmarks = foldEntries es st.newBookmarks
  | CTreeList.nil, f, st, es, h => by
    rw [mainEntriesList] at h
    injection h with h'
    subst h'
    exact ⟨rfl, rfl⟩
  | CTreeList.cons t rest, f, st, es, h => by
    rw [mainEntriesList] at h
    rcases h1 : mainEntries client t with _ | es1 <;> rw [h1] at h
    · exact absurd h (by simp)
    · rcases h2 : mainEntriesList client rest with _ | es2 <;> rw [h2] at h
      · exact absurd h (by simp)
      · have hes : es = es1 ++ es2 := by
          injection h with h'
          exact h'.symm
        subst hes
        have ha := pc_entries client prev t f st es1 h1
        have hb := pcl_entries client prev rest f (processCollection client prev f t st).2 es2 h2
        rw [processChildren]
        rw [ha.1, if_pos rfl]
        exact ⟨hb.1, by rw [hb.2, ha.2, foldEntries_append]⟩
end

/-! Agreement of a previous map with every entry of the walk, and its
consequence: the walk leaves `added`, `updated` and `deleted` untouched. -/

mutual
/-- Every raindrop fetched during the walk of `t` already has its exact
`BookmarkState` under its URL in `prev`. -/
def AgreesMain (prev : BMap) (client : Client) : CTree → Prop
  | .node data children =>
    (∀ rds, client (cidOf data) = some rds →
      ∀ rd ∈ rds, alGet prev rd.link = some (mkBookmarkState rd (cidOf data))) ∧
    AgreesMainL prev client children
/-- `AgreesMain` over an ordered child list. -/
def AgreesMainL (prev : BMap) (client : Client) : CTreeList → Prop
  | .nil => True
  | .cons t ts => AgreesMain prev client t ∧ AgreesMainL prev client ts
end

mutual
def agrees_of_entries (client : Client) (prev : BMap) :
    ∀ (t : CTree) (es : List (String × BookmarkState)),
    mainEntries client t = some es →
    (∀ e ∈ es, alGet prev e.1 = some e.2) →
    AgreesMain prev client t
  | CTree.node data children, es, h, hget => by
    rw [mainEntries] at h
    rcases hc : client (cidOf data) with _ | rds <;> rw [hc] at h
    · exact absurd h (by simp)
    · rcases hl : mainEntriesList client children with _ | es2 <;> rw [hl] at h
      · exact absurd h (by simp)
      · have hes : es = rds.map (fun rd => (rd.link, mkBookmarkState rd (cidOf data))) ++ es2 := by
          injection h with h'
          exact h'.symm
        subst hes
        rw [AgreesMain]
        refine ⟨?_, ?_⟩
        · intro rds' hrds' rd hrd
          rw [hc] at hrds'
          injection hrds' with h'
          subst h'
          exact hget (rd.link, mkBookmarkState rd (cidOf data))
            (List.mem_append_left _ (List.mem_map_of_mem _ hrd))
        · exact agrees_of_entriesL client prev children es2 hl
            (fun e he => hget e (List.mem_append_right _ he))
def agrees_of_entriesL (client : Client) (prev : BMap) :
    ∀ (ts : CTreeList) (es : List (String × BookmarkState)),
    mainEntriesList client ts = some es →
    (∀ e ∈ es, alGet prev e.1 = some e.2) →
    AgreesMainL prev client ts
  | CTreeList.nil, es, h, hget => by
    rw [AgreesMainL]
    trivial
  | CTreeList.cons t rest, es, h, hget => by
    rw [mainEntriesList] at h
    rcases h1 : mainEntries client t with _ | es1 <;> rw [h1] at h
    · exact absurd h (by simp)
    · rcases h2 : mainEntriesList client rest with _ | es2 <;> rw [h2] at h
      · exact absurd h (by simp)
      · have hes : es = es1 ++ es2 := by
          injection h with h'
          exact h'.symm
        subst hes
        rw [AgreesMainL]
        exact ⟨agrees_of_entries client prev t es1 h1
                 (fun e he => hget e (List.mem_append_left _ he)),
               agrees_of_entriesL client prev rest es2 h2
                 (fun e he => hget e (List.mem_append_right _ he))⟩
end

mutual
def pc_stats_agree (client : Client) (prev : BMap) :
    ∀ (t : CTree) (pf : String) (st : WalkState),
    AgreesMain prev client t →
    ((processCollection client prev pf t st).2.stats.added = st.stats.added ∧
     (processCollection client prev pf t st).2.stats.updated = st.stats.updated ∧
     (processCollection client prev pf t st).2.stats.deleted = st.stats.deleted)
  | CTree.node data children, pf, st, hA => by
    rw [AgreesMain] at hA
    obtain ⟨h1, h2⟩ := hA
    rcases hc : client (cidOf data) with _ | rds
    · rw [processCollection, hc]
      exact ⟨by rw [stepFolder_stats], by rw [stepFolder_stats], by rw [stepFolder_stats]⟩
    · rw [processCollection, hc]
      have hfold := rfold_stats_agree prev (cidOf data) (stepFolder st pf data).1 rds
        (stepFolder st pf data).2 (h1 rds hc)
      have hrec := pcl_stats_agree client prev children (stepFolder st pf data).1
        (rds.foldl (processRaindrop prev (cidOf data) (stepFolder st pf data).1)
          (stepFolder st pf data).2) h2
      refine ⟨?_, ?_, ?_⟩
      · rw [hrec.1, hfold.1, stepFolder_stats]
      · rw [hrec.2.1, hfold.2.1, stepFolder_stats]
      · rw [hrec.2.2, hfold.2.2, stepFolder_stats]
def pcl_stats_agree (client : Client) (prev : BMap) :
    ∀ (ts : CTreeList) (f : String) (st : WalkState),
    AgreesMainL prev client ts →
    ((processChildren client prev f ts st).2.stats.added = st.stats.added ∧
     (processChildren client prev f ts st).2.stats.updated = st.stats.updated ∧
     (processChildren client prev f ts st).2.stats.deleted = st.stats.deleted)
  | CTreeList.nil, f, st, _ => ⟨rfl, rfl, rfl⟩
  | CTreeList.cons t rest, f, st, hA => by
    rw [AgreesMainL] at hA
    obtain ⟨h1, h2⟩ := hA
    rw [processChildren]
    by_cases hok : (processCollection client prev f t st).1 = true
    · rw [if_pos hok]
      have ha := pc_stats_agree client prev t f st h1
      have hb := pcl_stats_agree client prev rest f (processCollection client prev f t st).2 h2
      exact ⟨hb.1.trans ha.1, hb.2.1.trans ha.2.1, hb.2.2.trans ha.2.2⟩
    · rw [if_neg hok]
      exact pc_stats_agree client prev t f st h1
end

/-! Lemmas about the unsorted pass. -/

def processUnsortedRd_nb (prev : BMap) (uf : String) (st : WalkState) (rd : Raindrop) :
    (processUnsortedRd prev uf st rd).newBookmarks = ustep st.newBookmarks rd := by
  unfold processUnsortedRd ustep
  by_cases h : (alGet st.newBookmarks rd.link).isSome = true
  · rw [if_pos h, if_pos h]
  · rw [if_neg h, if_neg h]
    cases alGet prev rd.link with
    | none => rfl
    | some p =>
      dsimp only
      by_cases hc : p.title ≠ rd.title
      · rw [if_pos hc]
      · rw [if_neg hc]

def ufold_nb (prev : BMap) (uf : String) (rds : List Raindrop) :
    ∀ st : WalkState,
    (rds.foldl (processUnsortedRd prev uf) st).newBookmarks
      = rds.foldl ustep st.newBookmarks := by
  induction rds with
  | nil => intro st; rfl
  | cons rd rds ih =>
    intro st
    show (rds.foldl (processUnsortedRd prev uf) (processUnsortedRd prev uf st rd)).newBookmarks = _
    rw [ih, processUnsortedRd_nb]
    rfl

def ufold_preserve (rds : List Raindrop) :
    ∀ (m : BMap) (k : String) (v : BookmarkState),
    alGet m k = some v → alGet (rds.foldl ustep m) k = some v := by
  induction rds with
  | nil => intro m k v h; exact h
  | cons rd rds ih =>
    intro m k v h
    rw [List.foldl_cons]
    apply ih
    unfold ustep
    by_cases hs : (alGet m rd.link).isSome = true
    · rw [if_pos hs]; exact h
    · rw [if_neg hs]
      have hne : ¬(rd.link = k) := by
        intro he
        rw [he, h] at hs
        simp at hs
      rw [alGet_alSet_ne _ _ _ _ hne]
      exact h

def ufold_stats_agree (prev : BMap) (uf : String) (rds : List Raindrop) :
    ∀ st : WalkState,
    (∀ k v, alGet (rds.foldl ustep st.newBookmarks) k = some v → alGet prev k = some v) →
    ((rds.foldl (processUnsortedRd prev uf) st).stats.added = st.stats.added ∧
     (rds.foldl (processUnsortedRd prev uf) st).stats.updated = st.stats.updated ∧
     (rds.foldl (processUnsortedRd prev uf) st).stats.deleted = st.stats.deleted) := by
  induction rds with
  | nil => intro st _; exact ⟨rfl, rfl, rfl⟩
  | cons rd rds ih =>
    intro st h
    by_cases hs : (alGet st.newBookmarks rd.link).isSome = true
    · have hstep : processUnsortedRd prev uf st rd = st := by
        unfold processUnsortedRd
        rw [if_pos hs]
      have hu : ustep st.newBookmarks rd = st.newBookmarks := by
        unfold ustep
        rw [if_pos hs]
      rw [List.foldl_cons, hstep]
      exact ih st (by rw [List.foldl_cons, hu] at h; exact h)
    · have hu : ustep st.newBookmarks rd = alSet st.newBookmarks rd.link (mkBookmarkState rd (-1)) := by
        unfold ustep
        rw [if_neg hs]
      have hget : alGet prev rd.link = some (mkBookmarkState rd (-1)) := by
        apply h
        rw [List.foldl_cons, hu]
        exact ufold_preserve rds _ _ _ (alGet_alSet_self _ _ _)
      have hstep : processUnsortedRd prev uf st rd =
          { st with
              newBookmarks := alSet st.newBookmarks rd.link (mkBookmarkState rd (-1))
              stats := { st.stats with unchanged := st.stats.unchanged + 1 } } := by
        unfold processUnsortedRd
        rw [if_neg hs, hget]
        dsimp only
        rw [if_neg (by simp [mkBookmarkState])]
      rw [List.foldl_cons, hstep]
      refine ih _ ?_
      intro k v hkv
      apply h
      rw [List.foldl_cons, hu]
      exact hkv

def syncUnsorted_nb (client : Client) (prev : BMap) (baseId : String) (st : WalkState) :
    (syncUnsorted client prev baseId st).newBookmarks = unsortedMap client st.newBookmarks := by
  unfold syncUnsorted unsortedMap
  cases client (-1) with
  | none => rfl
  | some rds =>
    dsimp only
    rw [ufold_nb]

def syncUnsorted_stats_agree (client : Client) (prev : BMap) (baseId : String) (st : WalkState)
    (h : ∀ k v, alGet (unsortedMap client st.newBookmarks) k = some v → alGet prev k = some v) :
    ((syncUnsorted client prev baseId st).stats.added = st.stats.added ∧
     (syncUnsorted client prev baseId st).stats.updated = st.stats.updated ∧
     (syncUnsorted client prev baseId st).stats.deleted = st.stats.deleted) := by
  unfold syncUnsorted
  unfold unsortedMap at h
  rcases hc : client (-1) with _ | rds <;> rw [hc] at h
  · exact ⟨rfl, rfl, rfl⟩
  · dsimp only
    exact ufold_stats_agree prev _ rds _ h

/-! Lemmas about the deletion pass. -/

def deleteStale_skip (newB : BMap) (prevB : BMap) (base : String) :
    ∀ (b : Browser) (d : Nat),
    (∀ p ∈ prevB, (alGet newB p.1).isSome) →
    deleteStalePass newB prevB base b d = (b, d) := by
  induction prevB with
  | nil => intro b d _; rfl
  | cons p ps ih =>
    intro b d h
    unfold deleteStalePass
    rw [List.foldl_cons, if_pos (h p (List.mem_cons_self p ps))]
    exact ih b d (fun q hq => h q (List.mem_cons_of_mem p hq))

/-! First-run lemmas: with an empty previous map every processed item takes
the create branch, and the browser only grows. -/

def create_mem (b : Browser) (p t : String) (u : Option String) (n : BmNode)
    (h : n ∈ b.nodes) : n ∈ (b.create p t u).2.nodes := by
  unfold Browser.create
  exact List.mem_append_left _ h

def resolveCollectionFolder_nodes (st : WalkState) (pf : String) (cid : Int) (ct : String) :
    ∀ n ∈ st.browser.nodes, n ∈ (resolveCollectionFolder st pf cid ct).2.nodes := by
  intro n hn
  unfold resolveCollectionFolder
  cases alGet st.collectionFolders cid with
  | none =>
    dsimp only
    exact create_mem _ _ _ _ _ hn
  | some fid =>
    dsimp only
    cases st.browser.find fid with
    | none =>
      dsimp only
      exact create_mem _ _ _ _ _ hn
    | some x =>
      dsimp only
      exact hn

def stepFolder_nodes (st : WalkState) (pf : String) (data : Option Collection) :
    ∀ n ∈ st.browser.nodes, n ∈ (stepFolder st pf data).2.browser.nodes := by
  intro n hn
  unfold stepFolder
  by_cases h : titled data = true
  · rw [if_pos h]
    exact resolveCollectionFolder_nodes st pf _ _ n hn
  · rw [if_neg h]
    exact hn

def resolveUnsortedFolder_nodes (b : Browser) (cf : List (Int × String)) (baseId : String) :
    ∀ n ∈ b.nodes, n ∈ (resolveUnsortedFolder b cf baseId).2.nodes := by
  intro n hn
  unfold resolveUnsortedFolder
  cases alGet cf (-1) with
  | some fid =>
    dsimp only
    cases b.find fid with
    | none =>
      dsimp only
      exact create_mem _ _ _ _ _ hn
    | some x =>
      dsimp only
      exact hn
  | none =>
    dsimp only
    cases (b.getChildren baseId).find?
        (fun c => decide (c.title = unsortedTitle ∧ c.url = none)) with
    | some c =>
      dsimp only
      exact hn
    | none =>
      dsimp only
      exact create_mem _ _ _ _ _ hn

def rfold_empty (cid : Int) (f : String) (rds : List Raindrop) :
    ∀ st : WalkState,
    ((rds.foldl (processRaindrop [] cid f) st).stats.added = st.stats.added + rds.length ∧
     (rds.foldl (processRaindrop [] cid f) st).stats.updated = st.stats.updated ∧
     (rds.foldl (processRaindrop [] cid f) st).stats.deleted = st.stats.deleted ∧
     (rds.foldl (processRaindrop [] cid f) st).stats.unchanged = st.stats.unchanged) ∧
    (∀ n ∈ st.browser.nodes, n ∈ (rds.foldl (processRaindrop [] cid f) st).browser.nodes) := by
  induction rds with
  | nil => intro st; exact ⟨⟨rfl, rfl, rfl, rfl⟩, fun n hn => hn⟩
  | cons rd rds ih =>
    intro st
    rw [List.foldl_cons, processRaindrop_empty]
    obtain ⟨⟨ha, hu, hd, hc⟩, hnodes⟩ := ih
      { st with
          newBookmarks := alSet st.newBookmarks rd.link (mkBookmarkState rd cid)
          browser := (st.browser.create f rd.title (some rd.link)).2
          stats := { st.stats with added := st.stats.added + 1 } }
    refine ⟨⟨?_, hu, hd, hc⟩, ?_⟩
    · rw [ha]
      simp only [List.length_cons]
      omega
    · intro n hn
      exact hnodes n (create_mem _ _ _ _ _ hn)

def processUnsortedRd_skip (prev : BMap) (uf : String) (st : WalkState) (rd : Raindrop)
    (h : (alGet st.newBookmarks rd.link).isSome = true) :
    processUnsortedRd prev uf st rd = st := by
  unfold processUnsortedRd
  rw [if_pos h]

def processUnsortedRd_empty (uf : String) (st : WalkState) (rd : Raindrop)
    (h : ¬((alGet st.newBookmarks rd.link).isSome = true)) :
    processUnsortedRd [] uf st rd =
      { st with
          newBookmarks := alSet st.newBookmarks rd.link (mkBookmarkState rd (-1))
          browser := (st.browser.create uf rd.title (some rd.link)).2
          stats := { st.stats with added := st.stats.added + 1 } } := by
  unfold processUnsortedRd
  rw [if_neg h]
  rfl

def ufold_empty (uf : String) (rds : List Raindrop) :
    ∀ st : WalkState,
    ((rds.foldl (processUnsortedRd [] uf) st).stats.added
        = st.stats.added + unsortedNewCountAux rds st.newBookmarks ∧
     (rds.foldl (processUnsortedRd [] uf) st).stats.updated = st.stats.updated ∧
     (rds.foldl (processUnsortedRd [] uf) st).stats.deleted = st.stats.deleted ∧
     (rds.foldl (processUnsortedRd [] uf) st).stats.unchanged = st.stats.unchanged) ∧
    (∀ n ∈ st.browser.nodes, n ∈ (rds.foldl (processUnsortedRd [] uf) st).browser.nodes) := by
  induction rds with
  | nil => intro st; exact ⟨⟨rfl, rfl, rfl, rfl⟩, fun n hn => hn⟩
  | cons rd rds ih =>
    intro st
    rw [List.foldl_cons]
    by_cases hs : (alGet st.newBookmarks rd.link).isSome = true
    · rw [processUnsortedRd_skip [] uf st rd hs]
      obtain ⟨⟨ha, hu, hd, hc⟩, hnodes⟩ := ih st
      have hcount : unsortedNewCountAux (rd :: rds) st.newBookmarks
          = unsortedNewCountAux rds st.newBookmarks := by
        show (if (alGet st.newBookmarks rd.link).isSome = true
            then unsortedNewCountAux rds st.newBookmarks
            else unsortedNewCountAux rds
              (alSet st.newBookmarks rd.link (mkBookmarkState rd (-1))) + 1)
          = unsortedNewCountAux rds st.newBookmarks
        rw [if_pos hs]
      exact ⟨⟨by rw [ha, hcount], hu, hd, hc⟩, hnodes⟩
    · rw [processUnsortedRd_empty uf st rd hs]
      obtain ⟨⟨ha, hu, hd, hc⟩, hnodes⟩ := ih
        { st with
            newBookmarks := alSet st.newBookmarks rd.link (mkBookmarkState rd (-1))
            browser := (st.browser.create uf rd.title (some rd.link)).2
            stats := { st.stats with added := st.stats.added + 1 } }
      have hcount : unsortedNewCountAux (rd :: rds) st.newBookmarks
          = unsortedNewCountAux rds
              (alSet st.newBookmarks rd.link (mkBookmarkState rd (-1))) + 1 := by
        show (if (alGet st.newBookmarks rd.link).isSome = true
            then unsortedNewCountAux rds st.newBookmarks
            else unsortedNewCountAux rds
              (alSet st.newBookmarks rd.link (mkBookmarkState rd (-1))) + 1)
          = _
        rw [if_neg hs]
      refine ⟨⟨?_, hu, hd, hc⟩, ?_⟩
      · rw [ha, hcount]
        dsimp only
        omega
      · intro n hn
        exact hnodes n (create_mem _ _ _ _ _ hn)

def syncUnsorted_empty (client : Client) (baseId : String) (st : WalkState) :
    ((syncUnsorted client [] baseId st).stats.added
        = st.stats.added + unsortedNewCount client st.newBookmarks ∧
     (syncUnsorted client [] baseId st).stats.updated = st.stats.updated ∧
     (syncUnsorted client [] baseId st).stats.deleted = st.stats.deleted ∧
     (syncUnsorted client [] baseId st).stats.unchanged = st.stats.unchanged) ∧
    (∀ n ∈ st.browser.nodes, n ∈ (syncUnsorted client [] baseId st).browser.nodes) := by
  unfold syncUnsorted unsortedNewCount
  rcases hc : client (-1) with _ | rds
  · exact ⟨⟨rfl, rfl, rfl, rfl⟩,
      fun n hn => resolveUnsortedFolder_nodes st.browser st.collectionFolders baseId n hn⟩
  · dsimp only
    obtain ⟨⟨ha, hu, hd, hcc⟩, hnodes⟩ := ufold_empty
      (resolveUnsortedFolder st.browser st.collectionFolders baseId).1 rds
      { st with
          browser := (resolveUnsortedFolder st.browser st.collectionFolders baseId).2
          collectionFolders := alSet st.collectionFolders (-1)
            (resolveUnsortedFolder st.browser st.collectionFolders baseId).1 }
    refine ⟨⟨ha, hu, hd, hcc⟩, ?_⟩
    intro n hn
    exact hnodes n (resolveUnsortedFolder_nodes st.browser st.collectionFolders baseId n hn)

mutual
def pc_stats_empty (client : Client) :
    ∀ (t : CTree) (pf : String) (st : WalkState) (es : List (String × BookmarkState)),
    mainEntries client t = some es →
    ((processCollection client [] pf t st).2.stats.added = st.stats.added + es.length ∧
     (processCollection client [] pf t st).2.stats.updated = st.stats.updated ∧
     (processCollection client [] pf t st).2.stats.deleted = st.stats.deleted ∧
     (processCollection client [] pf t st).2.stats.unchanged = st.stats.unchanged) ∧
    (∀ n ∈ st.browser.nodes, n ∈ (processCollection client [] pf t st).2.browser.nodes)
  | CTree.node data children, pf, st, es, h => by
    rw [mainEntries] at h
    rcases hc : client (cidOf data) with _ | rds <;> rw [hc] at h
    · exact absurd h (by simp)
    · rcases hl : mainEntriesList client children with _ | es2 <;> rw [hl] at h
      · exact absurd h (by simp)
      · have hes : es = rds.map (fun rd => (rd.link, mkBookmarkState rd (cidOf data))) ++ es2 := by
          injection h with h'
          exact h'.symm
        subst hes
        rw [processCollection, hc]
        obtain ⟨⟨ha1, hu1, hd1, hc1⟩, hn1⟩ := rfold_empty (cidOf data) (stepFolder st pf data).1
          rds (stepFolder st pf data).2
        obtain ⟨⟨ha2, hu2, hd2, hc2⟩, hn2⟩ := pcl_stats_empty client children
          (stepFolder st pf data).1
          (rds.foldl (processRaindrop [] (cidOf data) (stepFolder st pf data).1)
            (stepFolder st pf data).2) es2 hl
        refine ⟨⟨?_, ?_, ?_, ?_⟩, ?_⟩
        · rw [ha2, ha1, stepFolder_stats]
          simp
          omega
        · rw [hu2, hu1, stepFolder_stats]
        · rw [hd2, hd1, stepFolder_stats]
        · rw [hc2, hc1, stepFolder_stats]
        · intro n hn
          exact hn2 n (hn1 n (stepFolder_nodes st pf data n hn))
def pcl_stats_empty (client : Client) :
    ∀ (ts : CTreeList) (f : String) (st : WalkState) (es : List (String × BookmarkState)),
    mainEntriesList client ts = some es →
    ((processChildren client [] f ts st).2.stats.added = st.stats.added + es.length ∧
     (processChildren client [] f ts st).2.stats.updated = st.stats.updated ∧
     (processChildren client [] f ts st).2.stats.deleted = st.stats.deleted ∧
     (processChildren client [] f ts st).2.stats.unchanged = st.stats.unchanged) ∧
    (∀ n ∈ st.browser.nodes, n ∈ (processChildren client [] f ts st).2.browser.nodes)
  | CTreeList.nil, f, st, es, h => by
    rw [mainEntriesList] at h
    injection h with h'
    subst h'
    exact ⟨⟨rfl, rfl, rfl, rfl⟩, fun n hn => hn⟩
  | CTreeList.cons t rest, f, st, es, h => by
    rw [mainEntriesList] at h
    rcases h1 : mainEntries client t with _ | es1 <;> rw [h1] at h
    · exact absurd h (by simp)
    · rcases h2 : mainEntriesList client rest with _ | es2 <;> rw [h2] at h
      · exact absurd h (by simp)
      · have hes : es = es1 ++ es2 := by
          injection h with h'
          exact h'.symm
        subst hes
        have hok := (pc_entries client [] t f st es1 h1).1
        obtain ⟨⟨ha1, hu1, hd1, hc1⟩, hn1⟩ := pc_stats_empty client t f st es1 h1
        obtain ⟨⟨ha2, hu2, hd2, hc2⟩, hn2⟩ := pcl_stats_empty client rest f
          (processCollection client [] f t st).2 es2 h2
        rw [processChildren]
        rw [hok, if_pos rfl]
        refine ⟨⟨?_, ?_, ?_, ?_⟩, ?_⟩
        · rw [ha2, ha1]
          simp
          omega
        · rw [hu2, hu1]
        · rw [hd2, hd1]
        · rw [hc2, hc1]
        · intro n hn
          exact hn2 n (hn1 n hn)
end

/-! Round-trip of the modelled JS integer serialization. -/

def charDigit_digitChar (d : Nat) (h : d < 10) : charDigit (digitChar d) = some d := by
  interval_cases d <;> decide

def digitChar_ne_dash (d : Nat) (h : d < 10) : ¬ digitChar d = '-' := by
  interval_cases d <;> decide

def parseDigitsAux_append (l1 : List Char) :
    ∀ (acc : Nat) (l2 : List Char) (a : Nat),
    parseDigitsAux acc l1 = some a →
    parseDigitsAux acc (l1 ++ l2) = parseDigitsAux a l2 := by
  induction l1 with
  | nil =>
    intro acc l2 a h
    injection h with h'
    rw [← h']
    rfl
  | cons c cs ih =>
    intro acc l2 a h
    have hh : (match charDigit c with
        | some d => parseDigitsAux (acc * 10 + d) cs
        | none => none) = some a := h
    rcases hcd : charDigit c with _ | d <;> rw [hcd] at hh
    · exact absurd hh (by simp)
    · dsimp only at hh
      show (match charDigit c with
          | some d => parseDigitsAux (acc * 10 + d) (cs ++ l2)
          | none => none) = parseDigitsAux a l2
      rw [hcd]
      exact ih _ l2 a hh

def parse_natDigitsAux (fuel : Nat) :
    ∀ (n acc : Nat), n < fuel →
    parseDigitsAux acc (natDigitsAux fuel n)
      = some (acc * 10 ^ (natDigitsAux fuel n).length + n) := by
  induction fuel with
  | zero => intro n acc h; exact absurd h (Nat.not_lt_zero n)
  | succ fuel ih =>
    intro n acc h
    by_cases h10 : n < 10
    · show parseDigitsAux acc (natDigitsAux (fuel + 1) n) = _
      unfold natDigitsAux
      rw [if_pos h10]
      unfold parseDigitsAux
      rw [charDigit_digitChar n h10]
      show some (acc * 10 + n) = some (acc * 10 ^ List.length [digitChar n] + n)
      norm_num
    · unfold natDigitsAux
      rw [if_neg h10]
      have hlt : n / 10 < fuel := by omega
      rw [parseDigitsAux_append _ _ _ _ (ih (n / 10) acc hlt)]
      show parseDigitsAux _ [digitChar (n % 10)] = _
      unfold parseDigitsAux
      rw [charDigit_digitChar _ (Nat.mod_lt n (by norm_num))]
      show some ((acc * 10 ^ (natDigitsAux fuel (n / 10)).length + n / 10) * 10 + n % 10) = _
      congr 1
      rw [List.length_append, List.length_singleton, pow_succ]
      have h1 : (acc * 10 ^ (natDigitsAux fuel (n / 10)).length + n / 10) * 10 + n % 10
          = acc * (10 ^ (natDigitsAux fuel (n / 10)).length * 10) + (n / 10 * 10 + n % 10) := by
        ring
      have h2 : n / 10 * 10 + n % 10 = n := by omega
      rw [h1, h2]

def parse_natDigits (n : Nat) : parseDigitsAux 0 (natDigits n) = some n := by
  have h := parse_natDigitsAux (n + 1) n 0 (Nat.lt_succ_self n)
  unfold natDigits
  rw [h]
  simp

def natDigits_ne_nil (n : Nat) : ¬ natDigits n = [] := by
  unfold natDigits natDigitsAux
  by_cases h : n < 10
  · rw [if_pos h]; simp
  · rw [if_neg h]; simp

def natDigitsAux_mem (fuel : Nat) :
    ∀ (n : Nat) (c : Char), c ∈ natDigitsAux fuel n → ∃ d, d < 10 ∧ c = digitChar d := by
  induction fuel with
  | zero => intro n c h; simp [natDigitsAux] at h
  | succ fuel ih =>
    intro n c h
    unfold natDigitsAux at h
    by_cases h10 : n < 10
    · rw [if_pos h10] at h
      simp at h
      exact ⟨n, h10, h⟩
    · rw [if_neg h10] at h
      rcases List.mem_append.mp h with h1 | h2
      · exact ih _ _ h1
      · simp at h2
        exact ⟨n % 10, Nat.mod_lt n (by norm_num), h2⟩

def jsParseInt_roundtrip (i : Int) : jsParseInt (jsIntToString i) = i := by
  unfold jsIntToString jsParseInt
  by_cases hneg : i < 0
  · rw [if_pos hneg]
    show jsParseIntList ('-' :: natDigits i.natAbs) = i
    unfold jsParseIntList
    dsimp only
    rw [if_pos rfl, parse_natDigits]
    dsimp only
    omega
  · rw [if_neg hneg]
    show jsParseIntList (natDigits i.natAbs) = i
    rcases hL : natDigits i.natAbs with _ | ⟨c, cs⟩
    · exact absurd hL (natDigits_ne_nil _)
    · have hc : ∃ d, d < 10 ∧ c = digitChar d := by
        apply natDigitsAux_mem (i.natAbs + 1) i.natAbs c
        show c ∈ natDigits i.natAbs
        rw [hL]
        exact List.mem_cons_self c cs
      obtain ⟨d, hd, hcd⟩ := hc
      unfold jsParseIntList
      dsimp only
      rw [if_neg (hcd ▸ digitChar_ne_dash d hd), ← hL, parse_natDigits]
      dsimp only
      omega

def cfSerialize_roundtrip (l : List (Int × String)) :
    (l.map (fun p => (jsIntToString p.1, p.2))).map (fun p => (jsParseInt p.1, p.2)) = l := by
  induction l with
  | nil => rfl
  | cons p ps ih =>
    simp only [List.map_cons, ih, jsParseInt_roundtrip]

/-! Run-level lemmas. -/

def incrementalSync_eq_of_ok (client : Client) (baseId : String) (tree : CTree) (iu : Bool)
    (now : Int) (w : World) (hok : (walkResult client baseId tree w).1 = true) :
    incrementalSync client baseId tree iu now w =
      (some { (afterUnsorted client baseId tree iu w).stats with
                deleted := (deleteStalePass (afterUnsorted client baseId tree iu w).newBookmarks
                  (prevBookmarksOf w) baseId (afterUnsorted client baseId tree iu w).browser
                  (afterUnsorted client baseId tree iu w).stats.deleted).2 },
       saveSyncState
         { bookmarks := (afterUnsorted client baseId tree iu w).newBookmarks
           collectionFolders := (afterUnsorted client baseId tree iu w).collectionFolders
           lastSync := now }
         { w with browser := (deleteStalePass (afterUnsorted client baseId tree iu w).newBookmarks
             (prevBookmarksOf w) baseId (afterUnsorted client baseId tree iu w).browser
             (afterUnsorted client baseId tree iu w).stats.deleted).1 }) := by
  unfold incrementalSync
  dsimp only
  rw [hok, if_pos rfl]

def incrementalSync_eq_of_fail (client : Client) (baseId : String) (tree : CTree) (iu : Bool)
    (now : Int) (w : World) (hok : (walkResult client baseId tree w).1 = false) :
    incrementalSync client baseId tree iu now w =
      (none, { w with browser := (walkResult client baseId tree w).2.browser }) := by
  unfold incrementalSync
  dsimp only
  rw [hok]
  exact if_neg (by simp)

def buildAll_get (client : Client) (iu : Bool) (es : List (String × BookmarkState))
    (hnd : (es.map Prod.fst).Nodup) :
    ∀ e ∈ es, alGet (buildAll client iu es) e.1 = some e.2 := by
  intro e he
  have h0 := foldEntries_get_mem es [] e he hnd
  unfold buildAll
  by_cases hiu : iu = true
  · rw [if_pos hiu]
    unfold unsortedMap
    cases client (-1) with
    | none => exact h0
    | some rds => exact ufold_preserve rds _ _ _ h0
  · rw [if_neg hiu]
    exact h0

def afterUnsorted_nb (client : Client) (baseId : String) (tree : CTree) (iu : Bool)
    (w : World) (es : List (String × BookmarkState))
    (hes : mainEntries client tree = some es) :
    (afterUnsorted client baseId tree iu w).newBookmarks = buildAll client iu es := by
  have hpc := pc_entries client (prevBookmarksOf w) tree baseId (initWalk w) es hes
  unfold afterUnsorted buildAll
  by_cases hiu : iu = true
  · rw [if_pos hiu, if_pos hiu, syncUnsorted_nb]
    unfold walkResult
    rw [hpc.2]
    rfl
  · rw [if_neg hiu, if_neg hiu]
    unfold walkResult
    rw [hpc.2]
    rfl

def run_success (client : Client) (baseId : String) (tree : CTree) (iu : Bool)
    (now : Int) (w : World) (es : List (String × BookmarkState))
    (hes : mainEntries client tree = some es) :
    ∃ s w1 cf, incrementalSync client baseId tree iu now w = (some s, w1) ∧
      w1.storage = some
        { bookmarks := buildAll client iu es
          collectionFolders := cf
          lastSync := jsDateToISO now } := by
  have hpc := pc_entries client (prevBookmarksOf w) tree baseId (initWalk w) es hes
  have heq := incrementalSync_eq_of_ok client baseId tree iu now w hpc.1
  refine ⟨_, _,
    (afterUnsorted client baseId tree iu w).collectionFolders.map (fun p => (jsIntToString p.1, p.2)),
    heq, ?_⟩
  unfold saveSyncState
  dsimp only
  rw [afterUnsorted_nb client baseId tree iu w es hes]

def run_stats_zero (client : Client) (baseId : String) (tree : CTree) (iu : Bool)
    (now : Int) (w : World) (es : List (String × BookmarkState))
    (hes : mainEntries client tree = some es)
    (hnd : (es.map Prod.fst).Nodup)
    (hprev : prevBookmarksOf w = buildAll client iu es) :
    ∃ s2 w2, incrementalSync client baseId tree iu now w = (some s2, w2) ∧
      s2.added = 0 ∧ s2.updated = 0 ∧ s2.deleted = 0 := by
  have hget : ∀ e ∈ es, alGet (prevBookmarksOf w) e.1 = some e.2 := by
    intro e he
    rw [hprev]
    exact buildAll_get client iu es hnd e he
  have hA := agrees_of_entries client (prevBookmarksOf w) tree es hes hget
  have hpc := pc_entries client (prevBookmarksOf w) tree baseId (initWalk w) es hes
  have hwstats := pc_stats_agree client (prevBookmarksOf w) tree baseId (initWalk w) hA
  have hnb := afterUnsorted_nb client baseId tree iu w es hes
  have hstats1 : (afterUnsorted client baseId tree iu w).stats.added = 0 ∧
      (afterUnsorted client baseId tree iu w).stats.updated = 0 ∧
      (afterUnsorted client baseId tree iu w).stats.deleted = 0 := by
    unfold afterUnsorted
    by_cases hiu : iu = true
    · rw [if_pos hiu]
      have husstats := syncUnsorted_stats_agree client (prevBookmarksOf w) baseId
        (walkResult client baseId tree w).2 ?_
      · refine ⟨husstats.1.trans ?_, husstats.2.1.trans ?_, husstats.2.2.trans ?_⟩
        · exact hwstats.1
        · exact hwstats.2.1
        · exact hwstats.2.2
      · intro k v hkv
        rw [hprev]
        unfold buildAll
        rw [if_pos hiu]
        have : unsortedMap client (walkResult client baseId tree w).2.newBookmarks
            = unsortedMap client (foldEntries es []) := by
          unfold walkResult
          rw [hpc.2]
          rfl
        rw [this] at hkv
        exact hkv
    · rw [if_neg hiu]
      exact hwstats
  have hskip : deleteStalePass (afterUnsorted client baseId tree iu w).newBookmarks
      (prevBookmarksOf w) baseId (afterUnsorted client baseId tree iu w).browser
      (afterUnsorted client baseId tree iu w).stats.deleted
      = ((afterUnsorted client baseId tree iu w).browser,
         (afterUnsorted client baseId tree iu w).stats.deleted) := by
    apply deleteStale_skip
    intro p hp
    rw [hnb]
    apply alGet_isSome_of_mem _ _ p.2
    rw [hprev] at hp
    exact hp
  have heq := incrementalSync_eq_of_ok client baseId tree iu now w hpc.1
  rw [hskip] at heq
  exact ⟨_, _, heq, hstats1.1, hstats1.2.1, by
    show ({ (afterUnsorted client baseId tree iu w).stats with
      deleted := (afterUnsorted client baseId tree iu w).stats.deleted } : Stats).deleted = 0
    exact hstats1.2.2⟩

def run_empty (client : Client) (baseId : String) (tree : CTree) (iu : Bool)
    (now : Int) (w : World) (es : List (String × BookmarkState))
    (hes : mainEntries client tree = some es)
    (hst : w.storage = none) :
    ∃ s w1, incrementalSync client baseId tree iu now w = (some s, w1) ∧
      s.added = es.length + (if iu then unsortedNewCount client (foldEntries es []) else 0) ∧
      s.updated = 0 ∧ s.deleted = 0 ∧ s.unchanged = 0 ∧
      (∀ n ∈ w.browser.nodes, n ∈ w1.browser.nodes) := by
  have hprev : prevBookmarksOf w = [] := by
    unfold prevBookmarksOf loadSyncState
    rw [hst]
  have hwr : walkResult client baseId tree w
      = processCollection client [] baseId tree (initWalk w) := by
    unfold walkResult
    rw [hprev]
  have hpc := pc_entries client [] tree baseId (initWalk w) es hes
  have hpc2 : (processCollection client [] baseId tree (initWalk w)).2.newBookmarks
      = foldEntries es [] := hpc.2
  have hok : (walkResult client baseId tree w).1 = true := by
    rw [hwr]
    exact hpc.1
  obtain ⟨⟨ha1, hu1, hd1, hc1⟩, hn1⟩ := pc_stats_empty client tree baseId (initWalk w) es hes
  have ha1' : (processCollection client [] baseId tree (initWalk w)).2.stats.added
      = 0 + es.length := ha1
  have hu1' : (processCollection client [] baseId tree (initWalk w)).2.stats.updated = 0 := hu1
  have hd1' : (processCollection client [] baseId tree (initWalk w)).2.stats.deleted = 0 := hd1
  have hc1' : (processCollection client [] baseId tree (initWalk w)).2.stats.unchanged = 0 := hc1
  have hn1' : ∀ n ∈ w.browser.nodes,
      n ∈ (processCollection client [] baseId tree (initWalk w)).2.browser.nodes := hn1
  have hA : (afterUnsorted client baseId tree iu w).stats.added
        = es.length + (if iu then unsortedNewCount client (foldEntries es []) else 0) ∧
      (afterUnsorted client baseId tree iu w).stats.updated = 0 ∧
      (afterUnsorted client baseId tree iu w).stats.deleted = 0 ∧
      (afterUnsorted client baseId tree iu w).stats.unchanged = 0 ∧
      (∀ n ∈ w.browser.nodes, n ∈ (afterUnsorted client baseId tree iu w).browser.nodes) := by
    unfold afterUnsorted
    rw [hwr, hprev]
    by_cases hiu : iu = true
    · rw [if_pos hiu, if_pos hiu]
      obtain ⟨⟨ua, uu, ud, uc⟩, un⟩ := syncUnsorted_empty client baseId
        (processCollection client [] baseId tree (initWalk w)).2
      refine ⟨?_, ?_, ?_, ?_, ?_⟩
      · rw [ua, ha1', hpc2]
        omega
      · rw [uu, hu1']
      · rw [ud, hd1']
      · rw [uc, hc1']
      · intro n hn
        exact un n (hn1' n hn)
    · rw [if_neg hiu, if_neg hiu]
      refine ⟨?_, hu1', hd1', hc1', hn1'⟩
      rw [ha1']
      omega
  have hdel : deleteStalePass (afterUnsorted client baseId tree iu w).newBookmarks
      (prevBookmarksOf w) baseId (afterUnsorted client baseId tree iu w).browser
      (afterUnsorted client baseId tree iu w).stats.deleted
      = ((afterUnsorted client baseId tree iu w).browser,
         (afterUnsorted client baseId tree iu w).stats.deleted) := by
    rw [hprev]
    rfl
  have heq := incrementalSync_eq_of_ok client baseId tree iu now w hok
  rw [hdel] at heq
  refine ⟨_, _, heq, ?_, ?_, ?_, ?_, ?_⟩
  · exact hA.1
  · exact hA.2.1
  · show ({ (afterUnsorted client baseId tree iu w).stats with
      deleted := (afterUnsorted client baseId tree iu w).stats.deleted } : Stats).deleted = 0
    exact hA.2.2.1
  · exact hA.2.2.2.1
  · exact hA.2.2.2.2

/-! Deletion-pass lemmas: the pass only removes nodes, removes every
matching-URL node that has a parent, and never consults the base folder. -/

def removeStep_subset (base : String) (acc : Browser × Nat) (bm : BmNode) :
    ∀ x ∈ (removeStep base acc bm).1.nodes, x ∈ acc.1.nodes := by
  intro x hx
  unfold removeStep at hx
  cases hp : bm.parentId with
  | none =>
    rw [hp] at hx
    exact hx
  | some pid =>
    rw [hp] at hx
    dsimp only at hx
    rw [if_pos (show isInSyncFolder pid base = true from rfl)] at hx
    unfold Browser.remove at hx
    exact (List.mem_filter.mp hx).1

def foldRemove_subset (base : String) (rs : List BmNode) :
    ∀ (acc : Browser × Nat), ∀ x ∈ (rs.foldl (removeStep base) acc).1.nodes, x ∈ acc.1.nodes := by
  induction rs with
  | nil => intro acc x hx; exact hx
  | cons r rs ih =>
    intro acc x hx
    rw [List.foldl_cons] at hx
    exact removeStep_subset base acc r x (ih (removeStep base acc r) x hx)

def foldRemove_kill (base : String) (rs : List BmNode) :
    ∀ (acc : Browser × Nat) (bm : BmNode), bm ∈ rs → bm.parentId.isSome →
    ∀ x ∈ (rs.foldl (removeStep base) acc).1.nodes, ¬ x.id = bm.id := by
  induction rs with
  | nil => intro acc bm hmem; simp at hmem
  | cons r rs ih =>
    intro acc bm hmem hpar x hx hid
    rw [List.foldl_cons] at hx
    rcases List.mem_cons.mp hmem with h1 | h2
    · obtain ⟨pid, hpid⟩ := Option.isSome_iff_exists.mp (h1 ▸ hpar)
      have hstep : (removeStep base acc r).1 = acc.1.remove r.id := by
        unfold removeStep
        rw [hpid]
        dsimp only
        rw [if_pos (show isInSyncFolder pid base = true from rfl)]
      have hx' := foldRemove_subset base rs (removeStep base acc r) x hx
      rw [hstep] at hx'
      unfold Browser.remove at hx'
      have hne := (List.mem_filter.mp hx').2
      simp only [decide_eq_true_eq] at hne
      rw [h1] at hid
      exact hne hid
    · exact ih (removeStep base acc r) bm h2 hpar x hx hid

def removeStale_kill (base u : String) (b : Browser) (d : Nat) (bm : BmNode)
    (hmem : bm ∈ b.nodes) (hurl : bm.url = some u) (hpar : bm.parentId.isSome) :
    ∀ x ∈ (removeStaleForUrl base u b d).1.nodes, ¬ x.id = bm.id := by
  apply foldRemove_kill base (b.search u) (b, d) bm ?_ hpar
  unfold Browser.search
  rw [List.mem_filter]
  exact ⟨hmem, by simp [hurl]⟩

def pass_subset (newB prevB : BMap) (base : String) :
    ∀ (b : Browser) (d : Nat),
    ∀ x ∈ (deleteStalePass newB prevB base b d).1.nodes, x ∈ b.nodes := by
  induction prevB with
  | nil => intro b d x hx; exact hx
  | cons p ps ih =>
    intro b d x hx
    unfold deleteStalePass at hx
    rw [List.foldl_cons] at hx
    by_cases hs : (alGet newB p.1).isSome = true
    · rw [if_pos hs] at hx
      exact ih b d x hx
    · rw [if_neg hs] at hx
      have := ih (removeStaleForUrl base p.1 b d).1 (removeStaleForUrl base p.1 b d).2 x hx
      exact foldRemove_subset base (b.search p.1) (b, d) x this

def pass_kill (newB prevB : BMap) (base : String) (u : String) :
    ∀ (b : Browser) (d : Nat) (s : BookmarkState),
    (u, s) ∈ prevB → alGet newB u = none →
    ∀ x ∈ (deleteStalePass newB prevB base b d).1.nodes,
      ¬(x.url = some u ∧ x.parentId.isSome) := by
  induction prevB with
  | nil => intro b d s hmem; simp at hmem
  | cons p ps ih =>
    intro b d s hmem hstale x hx hcon
    obtain ⟨hxu, hxp⟩ := hcon
    unfold deleteStalePass at hx
    rw [List.foldl_cons] at hx
    rcases List.mem_cons.mp hmem with h1 | h2
    · have hp1 : p.1 = u := by rw [← h1]
      have hs : ¬ (alGet newB p.1).isSome = true := by
        rw [hp1, hstale]
        simp
      rw [if_neg hs] at hx
      have hxmid : x ∈ (removeStaleForUrl base p.1 b d).1.nodes :=
        pass_subset newB ps base _ _ x hx
      have hxb : x ∈ b.nodes := foldRemove_subset base (b.search p.1) (b, d) x hxmid
      have hkill := removeStale_kill base p.1 b d x hxb (hp1 ▸ hxu) hxp
      exact hkill x hxmid rfl
    · by_cases hs : (alGet newB p.1).isSome = true
      · rw [if_pos hs] at hx
        exact ih b d s h2 hstale x hx ⟨hxu, hxp⟩
      · rw [if_neg hs] at hx
        exact ih (removeStaleForUrl base p.1 b d).1 (removeStaleForUrl base p.1 b d).2 s h2
          hstale x hx ⟨hxu, hxp⟩

def removeStep_base (base1 base2 : String) : removeStep base1 = removeStep base2 := by
  funext acc bm
  unfold removeStep
  cases bm.parentId <;> rfl

def pass_base_irrel (newB prevB : BMap) (base1 base2 : String) (b : Browser) (d : Nat) :
    deleteStalePass newB prevB base1 b d = deleteStalePass newB prevB base2 b d := by
  unfold deleteStalePass removeStaleForUrl
  rw [removeStep_base base1 base2]

/-! Update-branch lemmas: every search result with a parent gets the new
title (and the move when the collection changed), wherever it lives. -/

def update_preserve (b : Browser) (id t : String) (n : BmNode) (hne : ¬ n.id = id)
    (hn : n ∈ b.nodes) : n ∈ (b.update id t).nodes := by
  unfold Browser.update
  have h := List.mem_map_of_mem (fun m => if m.id = id then { m with title := t } else m) hn
  dsimp only at h
  rw [if_neg hne] at h
  exact h

def move_preserve (b : Browser) (id pid : String) (n : BmNode) (hne : ¬ n.id = id)
    (hn : n ∈ b.nodes) : n ∈ (b.move id pid).nodes := by
  unfold Browser.move
  have h := List.mem_map_of_mem (fun m => if m.id = id then { m with parentId := some pid } else m) hn
  dsimp only at h
  rw [if_neg hne] at h
  exact h

def updMoveStep_preserve (title : String) (doMove : Bool) (folder : String)
    (b : Browser) (r n : BmNode) (hne : ¬ r.id = n.id) (hn : n ∈ b.nodes) :
    n ∈ (updMoveStep title doMove folder b r).nodes := by
  unfold updMoveStep
  have hne' : ¬ n.id = r.id := fun h => hne h.symm
  cases r.parentId with
  | none => exact hn
  | some pid =>
    dsimp only
    by_cases hm : doMove = true
    · rw [if_pos hm]
      exact move_preserve _ _ _ n hne' (update_preserve b r.id title n hne' hn)
    · rw [if_neg hm]
      exact update_preserve b r.id title n hne' hn

def updfold_preserve (title : String) (doMove : Bool) (folder : String) (rs : List BmNode) :
    ∀ (b : Browser) (n : BmNode), n ∈ b.nodes → (∀ r ∈ rs, ¬ r.id = n.id) →
    n ∈ (rs.foldl (updMoveStep title doMove folder) b).nodes := by
  induction rs with
  | nil => intro b n hn _; exact hn
  | cons r rs ih =>
    intro b n hn hne
    rw [List.foldl_cons]
    exact ih (updMoveStep title doMove folder b r) n
      (updMoveStep_preserve title doMove folder b r n (hne r (List.mem_cons_self r rs)) hn)
      (fun r' hr' => hne r' (List.mem_cons_of_mem r hr'))

def updMoveStep_hit (title : String) (doMove : Bool) (folder : String) (b : Browser)
    (bm : BmNode) (hpar : bm.parentId.isSome) (hmem : bm ∈ b.nodes) :
    ∃ n ∈ (updMoveStep title doMove folder b bm).nodes,
      n.id = bm.id ∧ n.title = title ∧
      n.parentId = (if doMove = true then some folder else bm.parentId) := by
  obtain ⟨pid, hpid⟩ := Option.isSome_iff_exists.mp hpar
  unfold updMoveStep
  rw [hpid]
  dsimp only
  by_cases hm : doMove = true
  · rw [if_pos hm, if_pos hm]
    refine ⟨{ bm with title := title, parentId := some folder }, ?_, rfl, rfl, rfl⟩
    unfold Browser.update Browser.move
    dsimp only
    have h1 := List.mem_map_of_mem (fun m => if m.id = bm.id then { m with title := title } else m) hmem
    dsimp only at h1
    rw [if_pos rfl] at h1
    have h2 := List.mem_map_of_mem
      (fun m => if m.id = bm.id then { m with parentId := some folder } else m) h1
    dsimp only at h2
    rw [if_pos rfl] at h2
    exact h2
  · rw [if_neg hm, if_neg hm]
    refine ⟨{ bm with title := title }, ?_, rfl, rfl, by rw [hpid]⟩
    unfold Browser.update
    have h1 := List.mem_map_of_mem (fun m => if m.id = bm.id then { m with title := title } else m) hmem
    dsimp only at h1
    rw [if_pos rfl] at h1
    exact h1

def updfold_hit (title : String) (doMove : Bool) (folder : String) (rs : List BmNode) :
    ∀ (b : Browser) (bm : BmNode),
    bm ∈ rs → bm ∈ b.nodes → bm.parentId.isSome →
    (rs.map (fun n => n.id)).Nodup →
    ∃ n ∈ (rs.foldl (updMoveStep title doMove folder) b).nodes,
      n.id = bm.id ∧ n.title = title ∧
      n.parentId = (if doMove = true then some folder else bm.parentId) := by
  induction rs with
  | nil => intro b bm hmem; simp at hmem
  | cons r rs ih =>
    intro b bm hmem hb hpar hnd
    simp only [List.map_cons, List.nodup_cons] at hnd
    rw [List.foldl_cons]
    rcases List.mem_cons.mp hmem with h1 | h2
    · subst h1
      obtain ⟨n, hn, hnid, hnt, hnp⟩ := updMoveStep_hit title doMove folder b bm hpar hb
      refine ⟨n, ?_, hnid, hnt, hnp⟩
      apply updfold_preserve title doMove folder rs _ n hn
      intro r' hr' he
      rw [hnid] at he
      exact hnd.1 (he ▸ List.mem_map_of_mem _ hr')
    · apply ih (updMoveStep title doMove folder b r) bm h2 ?_ hpar hnd.2
      apply updMoveStep_preserve title doMove folder b r bm ?_ hb
      intro he
      rw [he] at hnd
      exact hnd.1 (List.mem_map_of_mem _ h2)

def search_mem_nodes (b : Browser) (u : String) (bm : BmNode) (h : bm ∈ b.search u) :
    bm ∈ b.nodes := by
  unfold Browser.search at h
  exact (List.mem_filter.mp h).1

def search_mem_url (b : Browser) (u : String) (bm : BmNode) (h : bm ∈ b.search u) :
    bm.url = some u := by
  unfold Browser.search at h
  have := (List.mem_filter.mp h).2
  simpa using this

def search_ids_nodup (b : Browser) (u : String)
    (hnd : (b.nodes.map (fun n => n.id)).Nodup) :
    ((b.search u).map (fun n => n.id)).Nodup := by
  unfold Browser.search
  exact List.Nodup.sublist ((List.filter_sublist _).map _) hnd

def processRaindrop_update (prev : BMap) (cid : Int) (folder : String) (st : WalkState)
    (rd : Raindrop) (p : BookmarkState)
    (hprev : alGet prev rd.link = some p)
    (hdiff : p.title ≠ rd.title ∨ p.collectionId ≠ cid)
    (bm : BmNode) (hbm : bm ∈ st.browser.search rd.link) (hpar : bm.parentId.isSome)
    (hnd : (st.browser.nodes.map (fun n => n.id)).Nodup) :
    (processRaindrop prev cid folder st rd).stats.updated = st.stats.updated + 1 ∧
    ∃ n ∈ (processRaindrop prev cid folder st rd).browser.nodes,
      n.id = bm.id ∧ n.title = rd.title ∧
      n.parentId = (if decide (p.collectionId ≠ cid) = true then some folder else bm.parentId) := by
  unfold processRaindrop
  rw [hprev]
  dsimp only
  rw [if_pos hdiff]
  refine ⟨rfl, ?_⟩
  exact updfold_hit rd.title (decide (p.collectionId ≠ cid)) folder (st.browser.search rd.link)
    st.browser bm hbm (search_mem_nodes st.browser rd.link bm hbm) hpar
    (search_ids_nodup st.browser rd.link hnd)

def search_create_nourl (b : Browser) (pf t : String) (u : String) :
    (b.create pf t none).2.search u = b.search u := by
  unfold Browser.create Browser.search
  dsimp only
  rw [List.filter_append]
  simp

def nodup_create (b : Browser) (pf t : String) (u : Option String)
    (hnd : (b.nodes.map (fun n => n.id)).Nodup)
    (hfresh : ∀ n ∈ b.nodes, ¬ n.id = b.freshId) :
    ((b.create pf t u).2.nodes.map (fun n => n.id)).Nodup := by
  unfold Browser.create
  dsimp only
  rw [List.map_append]
  rw [List.nodup_append]
  refine ⟨hnd, by simp, ?_⟩
  intro i hi
  simp only [List.mem_map] at hi
  obtain ⟨n, hn, hni⟩ := hi
  simp only [List.map_cons, List.map_nil, List.mem_cons, List.not_mem_nil, or_false]
  intro he
  exact hfresh n hn (by rw [hni, he])

def resolve_cases (st : WalkState) (pf : String) (cid : Int) (ct : String) :
    (resolveCollectionFolder st pf cid ct).2 = st.browser ∨
    (resolveCollectionFolder st pf cid ct).2 = (st.browser.create pf ct none).2 := by
  unfold resolveCollectionFolder
  cases alGet st.collectionFolders cid with
  | none =>
    dsimp only
    right
    rfl
  | some fid =>
    dsimp only
    cases st.browser.find fid with
    | none =>
      dsimp only
      right
      rfl
    | some x =>
      left
      rfl

/-! The unsorted per-item handler agrees with the ordinary one on the create
branch but not in general. -/

def processUnsortedRd_create_eq (prev : BMap) (uf : String) (st : WalkState) (rd : Raindrop)
    (h1 : alGet st.newBookmarks rd.link = none) (h2 : alGet prev rd.link = none) :
    processUnsortedRd prev uf st rd = processRaindrop prev (-1) uf st rd := by
  unfold processUnsortedRd processRaindrop
  rw [if_neg (by simp [h1]), h2]

/-! Processing a single titled collection node. -/

def pc_single_node (client : Client) (prev : BMap) (pf : String) (cid : Int) (ctitle : String)
    (rds : List Raindrop) (st : WalkState)
    (hct : ¬(ctitle = "")) (hclient : client cid = some rds) :
    processCollection client prev pf (CTree.node (some ⟨cid, ctitle⟩) CTreeList.nil) st =
      (true, rds.foldl
        (processRaindrop prev cid (resolveCollectionFolder st pf cid ctitle).1)
        { st with
            browser := (resolveCollectionFolder st pf cid ctitle).2
            collectionFolders := alSet st.collectionFolders cid
              (resolveCollectionFolder st pf cid ctitle).1 }) := by
  have hclient' : client (cidOf (some ⟨cid, ctitle⟩)) = some rds := hclient
  have htit : titled (some ⟨cid, ctitle⟩) = true := by
    unfold titled
    simp [hct]
  have hcto : collectionTitleOf (some ⟨cid, ctitle⟩) = ctitle := by
    show (if ctitle = "" then "Unsorted" else ctitle) = ctitle
    rw [if_neg hct]
  rw [processCollection, hclient']
  unfold stepFolder
  rw [if_pos htit, hcto]
  dsimp only
  rw [processChildren]
  rfl

def pc_update_single (client : Client) (prev : BMap) (pf : String)
    (cid : Int) (ctitle : String) (rd : Raindrop) (p : BookmarkState)
    (st : WalkState) (bm : BmNode)
    (hct : ¬(ctitle = ""))
    (hclient : client cid = some [rd])
    (hprev : alGet prev rd.link = some p)
    (hdiff : p.title ≠ rd.title ∨ p.collectionId ≠ cid)
    (hbm : bm ∈ st.browser.search rd.link)
    (hpar : bm.parentId.isSome)
    (hnd : (st.browser.nodes.map (fun n => n.id)).Nodup)
    (hfresh : ∀ n ∈ st.browser.nodes, ¬ n.id = st.browser.freshId) :
    (processCollection client prev pf (CTree.node (some ⟨cid, ctitle⟩) CTreeList.nil) st).1
      = true ∧
    (processCollection client prev pf (CTree.node (some ⟨cid, ctitle⟩) CTreeList.nil) st).2.stats.updated
      = st.stats.updated + 1 ∧
    ∃ f, alGet (processCollection client prev pf
        (CTree.node (some ⟨cid, ctitle⟩) CTreeList.nil) st).2.collectionFolders cid = some f ∧
      ∃ n ∈ (processCollection client prev pf
          (CTree.node (some ⟨cid, ctitle⟩) CTreeList.nil) st).2.browser.nodes,
        n.id = bm.id ∧ n.title = rd.title ∧
        (p.collectionId ≠ cid → n.parentId = some f) := by
  rw [pc_single_node client prev pf cid ctitle [rd] st hct hclient]
  set st1 : WalkState :=
    { st with
        browser := (resolveCollectionFolder st pf cid ctitle).2
        collectionFolders := alSet st.collectionFolders cid
          (resolveCollectionFolder st pf cid ctitle).1 } with hst1
  have hsearch : bm ∈ st1.browser.search rd.link := by
    rcases resolve_cases st pf cid ctitle with hres | hres
    · rw [hst1]
      dsimp only
      rw [hres]
      exact hbm
    · rw [hst1]
      dsimp only
      rw [hres, search_create_nourl]
      exact hbm
  have hnd1 : (st1.browser.nodes.map (fun n => n.id)).Nodup := by
    rcases resolve_cases st pf cid ctitle with hres | hres
    · rw [hst1]
      dsimp only
      rw [hres]
      exact hnd
    · rw [hst1]
      dsimp only
      rw [hres]
      exact nodup_create st.browser pf ctitle none hnd hfresh
  have hupd := processRaindrop_update prev cid (resolveCollectionFolder st pf cid ctitle).1
    st1 rd p hprev hdiff bm hsearch hpar hnd1
  have hfold : List.foldl (processRaindrop prev cid (resolveCollectionFolder st pf cid ctitle).1)
      st1 [rd] = processRaindrop prev cid (resolveCollectionFolder st pf cid ctitle).1 st1 rd := rfl
  refine ⟨rfl, ?_, ?_⟩
  · show (List.foldl _ st1 [rd]).stats.updated = st.stats.updated + 1
    rw [hfold, hupd.1]
  · refine ⟨(resolveCollectionFolder st pf cid ctitle).1, ?_, ?_⟩
    · show alGet (List.foldl _ st1 [rd]).collectionFolders cid = _
      rw [hfold, processRaindrop_cf]
      show alGet (alSet st.collectionFolders cid _) cid = _
      rw [alGet_alSet_self]
    · obtain ⟨n, hn, hnid, hnt, hnp⟩ := hupd.2
      refine ⟨n, ?_, hnid, hnt, ?_⟩
      · show n ∈ (List.foldl _ st1 [rd]).browser.nodes
        rw [hfold]
        exact hn
      · intro hmove
        rw [hnp, if_pos (by simp [hmove])]

/-! Concrete fixtures used by the counterexamples and witnesses below. -/

def c1Client : Client := fun _ => some []

def c1Tree : CTree := CTree.node none CTreeList.nil

def c1State : BookmarkState := ⟨"u", "T", 1, 5, none, none⟩

def c1World : World :=
  { browser := ⟨[⟨"base", none, "Sync", none⟩, ⟨"out", none, "Other", none⟩,
                 ⟨"x", some "out", "T", some "u"⟩], 0⟩
    storage := some ⟨[("u", c1State)], [], "0"⟩
    writes := 0 }

def c2Client : Client := fun _ => some []

def c2Tree : CTree := CTree.node (some ⟨1, "Reading"⟩) CTreeList.nil

def c2World : World :=
  { browser := ⟨[⟨"base", none, "Sync", none⟩, ⟨"f1", some "base", "Reading", none⟩], 0⟩
    storage := some ⟨[], [("1", "f1")], "0"⟩
    writes := 0 }

def c3Client : Client := fun i =>
  if i = 1 then some [⟨"u", "t", 10, none, none⟩]
  else if i = 2 then some [⟨"u", "t", 20, none, none⟩]
  else some []

def c3Tree : CTree :=
  CTree.node (some ⟨1, "A"⟩)
    (CTreeList.cons (CTree.node (some ⟨2, "B"⟩) CTreeList.nil) CTreeList.nil)

def c3World : World :=
  { browser := ⟨[⟨"base", none, "Sync", none⟩], 0⟩, storage := none, writes := 0 }

def c3wClient : Client := fun i =>
  if i = 1 then some [⟨"u", "t", 10, none, none⟩] else some []

def c3wTree : CTree := CTree.node (some ⟨1, "A"⟩) CTreeList.nil

def c4Client : Client := fun _ => none

def c5Rd : Raindrop := ⟨"u", "new", 9, none, none⟩

def c5Prev : BookmarkState := ⟨"u", "old", 5, 9, none, none⟩

def c5St : WalkState :=
  { browser := ⟨[⟨"base", none, "Sync", none⟩, ⟨"bm1", some "base", "old", some "u"⟩], 0⟩
    newBookmarks := [], collectionFolders := [], stats := ⟨0, 0, 0, 0⟩ }

def c6Prev : BMap := [("u", ⟨"u", "t", 5, 1, none, none⟩)]

def c6St : WalkState :=
  { browser := ⟨[⟨"bm1", some "p", "t", some "u"⟩], 0⟩
    newBookmarks := [], collectionFolders := [], stats := ⟨0, 0, 0, 0⟩ }

def c6Rd : Raindrop := ⟨"u", "t", 9, none, none⟩

def c6SkipSt : WalkState := { c6St with newBookmarks := [("u", mkBookmarkState c6Rd (-1))] }

def c8St : WalkState :=
  { browser := ⟨[⟨"base", none, "Sync", none⟩, ⟨"out", none, "Other", none⟩,
                 ⟨"y", some "out", "old", some "u"⟩], 0⟩
    newBookmarks := [], collectionFolders := [], stats := ⟨0, 0, 0, 0⟩ }

def c10Client : Client := fun _ => some [⟨"u", "t", 3, none, none⟩]

def c10Tree : CTree := CTree.node none CTreeList.nil

/-! The claims. -/

/-- C1, counterexample: the claim says a destination bookmark outside the
managed destination root is never removed by the deletion pass.  In the world
`c1World`, node `x` lives under folder `out`, which is not in the subtree of
`opts.baseFolder` (`base`), its URL `u` is a stale entry of the previous
state, and the run removes it anyway: `isInSyncFolder` is a constant-`true`
stub. -/
theorem c1_counterexample :
    c1World.browser.isUnder "x" "base" = false ∧
    (∃ n ∈ c1World.browser.nodes, n.id = "x") ∧
    (incrementalSync c1Client "base" c1Tree false 0 c1World).1 = some ⟨0, 0, 1, 0⟩ ∧
    (∀ n ∈ (incrementalSync c1Client "base" c1Tree false 0 c1World).2.browser.nodes,
      ¬ n.id = "x") := by
  decide

/-- C1, amended: in the deletion pass of `incrementalSync`, every destination
bookmark that has a parent and whose URL is present in the previous
`bookmarks` map but absent from the new one is removed, regardless of whether
it lives under `opts.baseFolder`: the subtree check `isInSyncFolder` is a stub
returning `true`, so the pass's result does not depend on the base folder id
at all (second conjunct). -/
theorem c1_stale_removed_everywhere (newB prevB : BMap) (base base2 : String)
    (b : Browser) (d : Nat) (u : String) (s : BookmarkState)
    (hmem : (u, s) ∈ prevB) (hstale : alGet newB u = none) :
    (∀ x ∈ (deleteStalePass newB prevB base b d).1.nodes,
      ¬(x.url = some u ∧ x.parentId.isSome)) ∧
    deleteStalePass newB prevB base b d = deleteStalePass newB prevB base2 b d :=
  ⟨pass_kill newB prevB base u b d s hmem hstale,
   pass_base_irrel newB prevB base base2 b d⟩

/-- Witness for C1's amended theorem at a concrete stale map and browser. -/
theorem c1_witness :
    (∀ x ∈ (deleteStalePass [] [("u", c1State)] "base" c1World.browser 0).1.nodes,
      ¬(x.url = some "u" ∧ x.parentId.isSome)) ∧
    deleteStalePass [] [("u", c1State)] "base" c1World.browser 0
      = deleteStalePass [] [("u", c1State)] "zzz" c1World.browser 0 :=
  c1_stale_removed_everywhere [] [("u", c1State)] "base" "zzz" c1World.browser 0 "u" c1State
    (by decide) (by decide)

/-- C2, failing input: the previous SyncState maps collection 1 to the live
folder `f1` (first two conjuncts), yet the run creates a brand-new folder
`auto0` titled "Reading" and records `1 ↦ auto0`, because
`processCollectionForIncremental` looks the collection id up in the run-local
`collectionFolders` map created empty at the start of `incrementalSync`
(line 151) — the previous SyncState's `collectionFolders` is never consulted.
The claim (and the spec) say the previous mapping is looked up and the live
folder reused; the code contradicts its own comment "Look for existing
folder" and duplicates every collection folder on every incremental run. -/
theorem c2_bug_duplicate_folder :
    (loadSyncState c2World).map (fun s => s.collectionFolders) = some [(1, "f1")] ∧
    c2World.browser.find "f1" = some ⟨"f1", some "base", "Reading", none⟩ ∧
    incrementalSync c2Client "base" c2Tree false 0 c2World =
      (some ⟨0, 0, 0, 0⟩,
       { browser := ⟨[⟨"base", none, "Sync", none⟩, ⟨"f1", some "base", "Reading", none⟩,
                      ⟨"auto0", some "base", "Reading", none⟩], 1⟩
         storage := some ⟨[], [("1", "auto0")], "0"⟩
         writes := 1 }) := by
  decide

/-- C3, counterexample: the same URL `u` listed under two different
collections makes the second run report `updated = 1` (the previous state
stores the second collection's id, so processing the first collection sees a
collection change), refuting `added == 0, updated == 0, deleted == 0` for
every source tree. -/
theorem c3_counterexample :
    (incrementalSync c3Client "base" c3Tree false 0 c3World).1 = some ⟨2, 0, 0, 0⟩ ∧
    (incrementalSync c3Client "base" c3Tree false 1
      (incrementalSync c3Client "base" c3Tree false 0 c3World).2).1 = some ⟨0, 1, 0, 1⟩ := by
  decide

/-- C3, amended: if no two leaf items fetched during the main tree walk share
a URL (`hnd`), then running `incrementalSync` twice in a row with the same
client and tree (and no changes to the world in between) yields
`added = 0`, `updated = 0`, `deleted = 0` on the second run. -/
theorem c3_rerun_stable (client : Client) (baseId : String) (tree : CTree) (iu : Bool)
    (now1 now2 : Int) (w : World) (es : List (String × BookmarkState))
    (hes : mainEntries client tree = some es)
    (hnd : (es.map Prod.fst).Nodup)
    (s1 : Stats) (w1 : World)
    (h1 : incrementalSync client baseId tree iu now1 w = (some s1, w1)) :
    ∃ s2 w2, incrementalSync client baseId tree iu now2 w1 = (some s2, w2) ∧
      s2.added = 0 ∧ s2.updated = 0 ∧ s2.deleted = 0 := by
  obtain ⟨s', w1', cf, heq, hst⟩ := run_success client baseId tree iu now1 w es hes
  rw [h1] at heq
  have hw1 : w1.storage = some
      { bookmarks := buildAll client iu es, collectionFolders := cf
        lastSync := jsDateToISO now1 } := by
    have hsnd := congrArg Prod.snd heq
    dsimp only at hsnd
    rw [hsnd]
    exact hst
  have hprev : prevBookmarksOf w1 = buildAll client iu es := by
    unfold prevBookmarksOf loadSyncState
    rw [hw1]
  exact run_stats_zero client baseId tree iu now2 w1 es hes hnd hprev

/-- Witness for C3's amended theorem on a one-collection tree. -/
theorem c3_witness :
    ∃ s2 w2, incrementalSync c3wClient "base" c3wTree false 1
        (incrementalSync c3wClient "base" c3wTree false 0 c3World).2 = (some s2, w2) ∧
      s2.added = 0 ∧ s2.updated = 0 ∧ s2.deleted = 0 :=
  c3_rerun_stable c3wClient "base" c3wTree false 0 1 c3World
    [("u", mkBookmarkState ⟨"u", "t", 10, none, none⟩ 1)] (by decide) (by decide)
    ⟨1, 0, 0, 0⟩ (incrementalSync c3wClient "base" c3wTree false 0 c3World).2 (by decide)

/-- C4: `incrementalSync` persists exactly once, and only on the success
path.  If the run fails (a fetch in the main walk threw before the save), the
stored SyncState and the write counter are untouched; on success exactly one
store write happens and the stored value is the completely new state
`(newBookmarks, newCollectionFolders, now)` — never a mixture. -/
theorem c4_atomic_persist (client : Client) (baseId : String) (tree : CTree) (iu : Bool)
    (now : Int) (w : World) :
    (∀ w', incrementalSync client baseId tree iu now w = (none, w') →
      w'.storage = w.storage ∧ w'.writes = w.writes) ∧
    (∀ s w', incrementalSync client baseId tree iu now w = (some s, w') →
      w'.writes = w.writes + 1 ∧
      ∃ (nb : BMap) (cf : List (Int × String)), w'.storage = some
        { bookmarks := nb
          collectionFolders := cf.map (fun p => (jsIntToString p.1, p.2))
          lastSync := jsDateToISO now }) := by
  by_cases hok : (walkResult client baseId tree w).1 = true
  · have heq := incrementalSync_eq_of_ok client baseId tree iu now w hok
    constructor
    · intro w' h
      rw [heq] at h
      exact absurd (congrArg Prod.fst h) (by simp)
    · intro s w' h
      rw [heq] at h
      have hsnd := congrArg Prod.snd h
      dsimp only at hsnd
      rw [← hsnd]
      unfold saveSyncState
      exact ⟨rfl, _, _, rfl⟩
  · have hko : (walkResult client baseId tree w).1 = false := by
      cases hb : (walkResult client baseId tree w).1
      · rfl
      · exact absurd hb hok
    have heq := incrementalSync_eq_of_fail client baseId tree iu now w hko
    constructor
    · intro w' h
      rw [heq] at h
      have hsnd := congrArg Prod.snd h
      dsimp only at hsnd
      rw [← hsnd]
      exact ⟨rfl, rfl⟩
    · intro s w' h
      rw [heq] at h
      exact absurd (congrArg Prod.fst h) (by simp)

/-- Witness for C4 on a failing run (client that always throws) and on a
succeeding run. -/
theorem c4_witness :
    ((incrementalSync c4Client "base" c1Tree false 0 c3World).2.storage = c3World.storage ∧
     (incrementalSync c4Client "base" c1Tree false 0 c3World).2.writes = c3World.writes) ∧
    ((incrementalSync c1Client "base" c1Tree false 0 c3World).2.writes = c3World.writes + 1 ∧
     ∃ (nb : BMap) (cf : List (Int × String)),
       (incrementalSync c1Client "base" c1Tree false 0 c3World).2.storage = some
       { bookmarks := nb
         collectionFolders := cf.map (fun p => (jsIntToString p.1, p.2))
         lastSync := jsDateToISO 0 } : Prop) :=
  ⟨(c4_atomic_persist c4Client "base" c1Tree false 0 c3World).1
      (incrementalSync c4Client "base" c1Tree false 0 c3World).2 (by decide),
   (c4_atomic_persist c1Client "base" c1Tree false 0 c3World).2 ⟨0, 0, 0, 0⟩
      (incrementalSync c1Client "base" c1Tree false 0 c3World).2 (by decide)⟩

/-- C5: processing a titled collection node whose listing contains a leaf item
with a previous `BookmarkState` whose title or owning collection differs, the
engine counts `updated` once for the item, updates every matching destination
bookmark's title in place, and — when the collection id changed — moves it to
the destination folder resolved for the new collection; that folder is exactly
the one recorded for the collection id in the new `collectionFolders` map. -/
theorem c5_update_move (client : Client) (prev : BMap) (pf : String)
    (cid : Int) (ctitle : String) (rd : Raindrop) (p : BookmarkState)
    (st : WalkState) (bm : BmNode)
    (hct : ¬(ctitle = ""))
    (hclient : client cid = some [rd])
    (hprev : alGet prev rd.link = some p)
    (hdiff : p.title ≠ rd.title ∨ p.collectionId ≠ cid)
    (hbm : bm ∈ st.browser.search rd.link)
    (hpar : bm.parentId.isSome)
    (hnd : (st.browser.nodes.map (fun n => n.id)).Nodup)
    (hfresh : ∀ n ∈ st.browser.nodes, ¬ n.id = st.browser.freshId) :
    (processCollection client prev pf (CTree.node (some ⟨cid, ctitle⟩) CTreeList.nil) st).1
      = true ∧
    (processCollection client prev pf
        (CTree.node (some ⟨cid, ctitle⟩) CTreeList.nil) st).2.stats.updated
      = st.stats.updated + 1 ∧
    ∃ f, alGet (processCollection client prev pf
        (CTree.node (some ⟨cid, ctitle⟩) CTreeList.nil) st).2.collectionFolders cid = some f ∧
      ∃ n ∈ (processCollection client prev pf
          (CTree.node (some ⟨cid, ctitle⟩) CTreeList.nil) st).2.browser.nodes,
        n.id = bm.id ∧ n.title = rd.title ∧
        (p.collectionId ≠ cid → n.parentId = some f) :=
  pc_update_single client prev pf cid ctitle rd p st bm hct hclient hprev hdiff hbm hpar hnd hfresh

/-- Witness for C5: item `u` moved from collection 5 to collection 1
("C"); the destination bookmark `bm1` is retitled and moved into the freshly
resolved folder for collection 1. -/
theorem c5_witness :
    (processCollection c3wClient [("u", c5Prev)] "base"
        (CTree.node (some ⟨1, "C"⟩) CTreeList.nil) c5St).1 = true ∧
    (processCollection c3wClient [("u", c5Prev)] "base"
        (CTree.node (some ⟨1, "C"⟩) CTreeList.nil) c5St).2.stats.updated
      = c5St.stats.updated + 1 ∧
    ∃ f, alGet (processCollection c3wClient [("u", c5Prev)] "base"
        (CTree.node (some ⟨1, "C"⟩) CTreeList.nil) c5St).2.collectionFolders 1 = some f ∧
      ∃ n ∈ (processCollection c3wClient [("u", c5Prev)] "base"
          (CTree.node (some ⟨1, "C"⟩) CTreeList.nil) c5St).2.browser.nodes,
        n.id = "bm1" ∧ n.title = ("t" : String) ∧
        (c5Prev.collectionId ≠ 1 → n.parentId = some f) := by
  have h := c5_update_move c3wClient [("u", c5Prev)] "base" 1 "C"
    ⟨"u", "t", 10, none, none⟩ c5Prev c5St ⟨"bm1", some "base", "old", some "u"⟩
    (by decide) (by decide) (by decide) (by decide) (by decide) (by decide)
    (by decide) (by decide)
  exact h

/-- C6, counterexample: the claim says the unsorted pseudo-collection is
processed "with the same create/update logic as ordinary collections".  At
this input (previous owning collection 5, same title), the ordinary logic
takes the update branch (collection changed → update and move, `updated`
counted), while `syncUnsortedCollection`'s logic only compares titles and
counts the item unchanged without moving it — the two handlers disagree. -/
theorem c6_counterexample :
    ¬ processUnsortedRd c6Prev "f" c6St c6Rd = processRaindrop c6Prev (-1) "f" c6St c6Rd := by
  decide

/-- C6, amended: the unsorted pass skips entirely any item whose URL is
already in the new `bookmarks` map (never created, updated or counted), and
its create branch coincides with the ordinary per-item logic at collection id
`-1`; its update logic, however, differs (title-only trigger, no parent
check, no move), as the counterexample shows. -/
theorem c6_unsorted_guard (prev : BMap) (uf : String) (st : WalkState) (rd : Raindrop) :
    ((alGet st.newBookmarks rd.link).isSome = true → processUnsortedRd prev uf st rd = st) ∧
    (alGet st.newBookmarks rd.link = none → alGet prev rd.link = none →
      processUnsortedRd prev uf st rd = processRaindrop prev (-1) uf st rd) :=
  ⟨fun h => processUnsortedRd_skip prev uf st rd h,
   fun h1 h2 => processUnsortedRd_create_eq prev uf st rd h1 h2⟩

/-- Witness for C6's amended theorem: a skipped duplicate and an agreeing
create. -/
theorem c6_witness :
    processUnsortedRd c6Prev "f" c6SkipSt c6Rd = c6SkipSt ∧
    processUnsortedRd [] "f" c6St c6Rd = processRaindrop [] (-1) "f" c6St c6Rd :=
  ⟨(c6_unsorted_guard c6Prev "f" c6SkipSt c6Rd).1 (by decide),
   (c6_unsorted_guard [] "f" c6St c6Rd).2 (by decide) (by decide)⟩

/-- C7: the modelled `normalizeUrl` (trim, strip exactly one trailing slash,
escape backslashes then slashes — the spec's composition, since the
implementation file is not among the sources) satisfies every assertion of
the repository's `normalizeUrl` test suite, including the example named in
the claim. -/
theorem c7_normalize_tests :
    normalizeUrl "   http://example.com/path/   " = "http:\\/\\/example.com\\/path" ∧
    normalizeUrl "http://example.com/path/" = "http:\\/\\/example.com\\/path" ∧
    normalizeUrl "http://example.com\\path\\to\\resource"
      = "http:\\/\\/example.com\\\\path\\\\to\\\\resource" ∧
    normalizeUrl "http://example.com/path/to/resource"
      = "http:\\/\\/example.com\\/path\\/to\\/resource" ∧
    normalizeUrl "   http://example.com/path/to/resource/with\\backslashes/   "
      = "http:\\/\\/example.com\\/path\\/to\\/resource\\/with\\\\backslashes" := by
  exact ⟨rfl, rfl, rfl, rfl, rfl⟩

/-- C8: when the update branch fires for a source item, the title update (and
the move, when the collection changed) is applied to every destination
bookmark returned by the global URL search that has a parent — the statement
imposes no constraint tying `bm` to the managed root, so bookmarks outside it
are covered — while `updated` is incremented exactly once for the item. -/
theorem c8_update_hits_all_search_results (prev : BMap) (cid : Int) (folder : String)
    (st : WalkState) (rd : Raindrop) (p : BookmarkState)
    (hprev : alGet prev rd.link = some p)
    (hdiff : p.title ≠ rd.title ∨ p.collectionId ≠ cid)
    (bm : BmNode) (hbm : bm ∈ st.browser.search rd.link) (hpar : bm.parentId.isSome)
    (hnd : (st.browser.nodes.map (fun n => n.id)).Nodup) :
    (processRaindrop prev cid folder st rd).stats.updated = st.stats.updated + 1 ∧
    ∃ n ∈ (processRaindrop prev cid folder st rd).browser.nodes,
      n.id = bm.id ∧ n.title = rd.title ∧
      n.parentId = (if decide (p.collectionId ≠ cid) = true then some folder
        else bm.parentId) :=
  processRaindrop_update prev cid folder st rd p hprev hdiff bm hbm hpar hnd

/-- Witness for C8: the bookmark `y` lives under `out`, far from any managed
folder, and still gets retitled and moved. -/
theorem c8_witness :
    (processRaindrop [("u", c5Prev)] 7 "f" c8St c5Rd).stats.updated
      = c8St.stats.updated + 1 ∧
    ∃ n ∈ (processRaindrop [("u", c5Prev)] 7 "f" c8St c5Rd).browser.nodes,
      n.id = ("y" : String) ∧ n.title = c5Rd.title ∧
      n.parentId = (if decide (c5Prev.collectionId ≠ 7) = true then some "f"
        else (⟨"y", some "out", "old", some "u"⟩ : BmNode).parentId) :=
  c8_update_hits_all_search_results [("u", c5Prev)] 7 "f" c8St c5Rd c5Prev
    (by decide) (by decide) ⟨"y", some "out", "old", some "u"⟩ (by decide) (by decide)
    (by decide)

/-- C9: `saveSyncState` followed by `loadSyncState` returns the saved state
exactly: the bookmarks map unchanged, the `collectionFolders` integer keys
surviving the string serialization and `parseInt`, and `lastSync` surviving
the ISO round-trip. -/
theorem c9_state_roundtrip (s : SyncState) (w : World) :
    loadSyncState (saveSyncState s w) = some s := by
  unfold saveSyncState loadSyncState
  dsimp only
  rw [cfSerialize_roundtrip]
  unfold jsDateParse jsDateToISO
  rw [jsParseInt_roundtrip]

/-- C10, counterexample: the claim says `added` equals the number of fetched
items on a first run.  Here the single unsorted item `u` is fetched twice
(once by the main walk of the untitled root, once by the unsorted pass), so
two items are fetched but the second is skipped by the dedup guard:
`added = 1`. -/
theorem c10_counterexample :
    c10Client (-1) = some [⟨"u", "t", 3, none, none⟩] ∧
    mainEntries c10Client c10Tree
      = some [("u", mkBookmarkState ⟨"u", "t", 3, none, none⟩ (-1))] ∧
    (incrementalSync c10Client "base" c10Tree true 0 c3World).1 = some ⟨1, 0, 0, 0⟩ := by
  decide

/-- C10, amended: with no previously persisted SyncState, every item fetched
by the main walk takes the create branch and every unsorted item not skipped
by the dedup guard does too: `added` is the number of main-walk entries plus
the non-skipped unsorted count, `updated = deleted = unchanged = 0`, and no
destination bookmark is removed (every pre-existing browser node survives). -/
theorem c10_first_run (client : Client) (baseId : String) (tree : CTree) (iu : Bool)
    (now : Int) (w : World) (es : List (String × BookmarkState))
    (hes : mainEntries client tree = some es)
    (hst : w.storage = none) :
    ∃ s w1, incrementalSync client baseId tree iu now w = (some s, w1) ∧
      s.added = es.length + (if iu then unsortedNewCount client (foldEntries es []) else 0) ∧
      s.updated = 0 ∧ s.deleted = 0 ∧ s.unchanged = 0 ∧
      (∀ n ∈ w.browser.nodes, n ∈ w1.browser.nodes) :=
  run_empty client baseId tree iu now w es hes hst

/-- Witness for C10's amended theorem on a one-collection tree with the
unsorted pass enabled. -/
theorem c10_witness :
    ∃ s w1, incrementalSync c3wClient "base" c3wTree true 0 c3World = (some s, w1) ∧
      s.added = [("u", mkBookmarkState ⟨"u", "t", 10, none, none⟩ 1)].length +
        (if true then unsortedNewCount c3wClient
          (foldEntries [("u", mkBookmarkState ⟨"u", "t", 10, none, none⟩ 1)] []) else 0) ∧
      s.updated = 0 ∧ s.deleted = 0 ∧ s.unchanged = 0 ∧
      (∀ n ∈ c3World.browser.nodes, n ∈ w1.browser.nodes) :=
  c10_first_run c3wClient "base" c3wTree true 0 c3World
    [("u", mkBookmarkState ⟨"u", "t", 10, none, none⟩ 1)] (by decide) (by decide)

end RSC
